import Mathlib

set_option maxRecDepth 10000

/-!
Verification development for the walter outage-announcement pipeline.

The definitions below are a shallow embedding of
`src/services/water_stops_service.py` and
`src/services/electricity_stops_service.py`:

* Python strings are Lean `String`s (both `len` and slicing count code
  points, matching Python semantics).
* `datetime.now()` and `cache_time` are natural numbers measured in
  minutes; `cache_duration = timedelta(minutes=30)` becomes the literal
  `30`.
* The network / browser work inside the `try:` block of each
  `get_*_stops` is abstracted as an `Except` argument: `.ok stops` is a
  fetch whose download-and-parse sequence produced `stops`, `.error e`
  is any exception raised inside the `try:` block.  The returned `Bool`
  records whether the body of the `try:` block was entered (i.e. whether
  network/browser work was performed) — `false` means the call was
  answered from the cache.
* `random.choice(footers)` becomes an explicit index argument reduced
  modulo the pool size.
-/

/-- Concatenation of a list of strings (Python `"".join` / repeated `+=`). -/
def strJoin : List String → String
  | [] => ""
  | s :: rest => s ++ strJoin rest

/-- Python slice `s[:n]` over code points. -/
def pySlice (n : Nat) (s : String) : String := String.mk (s.data.take n)

/-- Python `str.strip()`: drop whitespace from both ends. -/
def stripWs (l : List Char) : List Char :=
  ((l.dropWhile Char.isWhitespace).reverse.dropWhile Char.isWhitespace).reverse

/-- The needle `nd` occurs in `hay` starting at index `i`. -/
def MatchAt (nd hay : List Char) (i : Nat) : Prop := (hay.drop i).take nd.length = nd

instance (nd hay : List Char) (i : Nat) : Decidable (MatchAt nd hay i) := by
  unfold MatchAt; infer_instance

/-- Index of the first occurrence of `nd` in `hay` (Python `str.find`,
with `none` for `-1`). -/
def findSub (hay nd : List Char) : Option Nat :=
  if hay.take nd.length = nd then some 0
  else
    match hay with
    | [] => none
    | _ :: t => (findSub t nd).map (· + 1)

/-- Python substring test `nd in hay`. -/
def strContains (hay nd : String) : Bool := (findSub hay.data nd.data).isSome

/-- Python `enumerate(xs, i)` fused with rendering each element. -/
def numberEntries (render : Nat → α → String) : Nat → List α → List String
  | _, [] => []
  | i, s :: rest => render i s :: numberEntries render (i + 1) rest

/-- The chunk-splitting loop shared by all four overflow branches of the
two formatters (`water_stops_service.py` lines 262-276 and 296-310,
`electricity_stops_service.py` lines 249-263 and 290-305):

    for entry in entries:
        if len(chunk_msg) + len(entry) > 1900:
            messages.append(chunk_msg)
            chunk_msg = «banner of next part»
        chunk_msg += entry
    if chunk_msg:
        messages.append(chunk_msg)

`mkBanner` builds the next part banner from the message list as it
stands immediately after the `append` (the Python code reads
`len(messages)` / message contents at exactly that point). -/
def chunkLoop (mkBanner : List String → String) :
    List String → String → List String → List String
  | msgs, chunk, [] => if chunk = "" then msgs else msgs ++ [chunk]
  | msgs, chunk, e :: rest =>
    if 1900 < chunk.length + e.length then
      chunkLoop mkBanner (msgs ++ [chunk]) (mkBanner (msgs ++ [chunk]) ++ e) rest
    else
      chunkLoop mkBanner msgs (chunk ++ e) rest

/-- Python `messages[-1] += s` (a no-op on the empty list, which the
source guards with `if messages:`). -/
def appendToLast (s : String) : List String → List String
  | [] => []
  | [m] => [m ++ s]
  | m :: ms => m :: appendToLast s ms

/-- Category of a water stop: the section it was parsed from
(`water_stops_service.py` lines 113-124). -/
inductive WCategory where
  | current : WCategory
  | planned : WCategory
deriving DecidableEq

/-- A water-stop record as built by `_parse_water_stops`
(`water_stops_service.py` lines 161-168). -/
structure WaterStop where
  location : String
  type : String
  description : String
  start : String
  «end» : String
  category : WCategory
deriving DecidableEq

/-- Category of an electricity stop (`electricity_stops_service.py`
line 190: the string planned when is_planned holds, else unplanned). -/
inductive ECategory where
  | unplanned : ECategory
  | planned : ECategory
deriving DecidableEq

/-- An electricity-outage record as built by
`_fetch_municipality_details` (`electricity_stops_service.py`
lines 184-192). -/
structure ElecStop where
  location : String
  municipality : String
  region : String
  start : String
  «end» : String
  category : ECategory
  type_bg : String
deriving DecidableEq

/-- Dynamic return shape of both formatters: `None`, a single string, or
a list of strings. -/
inductive FmtResult where
  | noMsg : FmtResult
  | one : String → FmtResult
  | many : List String → FmtResult
deriving DecidableEq

/-! Field extraction (`water_stops_service.py` lines 178-219). -/

/-- The fixed lookahead marker list of `_extract_field`
(`water_stops_service.py` line 203).  Note that it does NOT contain
`Местоположение:`. -/
def fieldMarkers : List String := ["Тип:", "Описание:", "Начало:", "Край:"]

/-- The five field labels used by `_parse_water_stops`
(`water_stops_service.py` lines 154-158). -/
def waterLabels : List String :=
  ["Местоположение:", "Тип:", "Описание:", "Начало:", "Край:"]

/-- Translation of `_extract_field` (`water_stops_service.py`
lines 178-219): split at the first occurrence of `field_name`, cut the
remainder at the nearest occurrence of any string in `fieldMarkers`,
strip whitespace, and return `none` for a missing label or an empty
stripped value.  `nextMarkerStep` is one iteration of the
`for marker in field_markers:` minimum search (lines 205-210): `pos =
remaining.find(marker); if pos != -1 and pos < next_marker_pos:
next_marker_pos = pos`. -/
def nextMarkerStep (remaining : List Char) (p : Nat) (m : String) : Nat :=
  match findSub remaining m.data with
  | some q => if q < p then q else p
  | none => p

def extract_field (text field_name : String) : Option String :=
  match findSub text.data field_name.data with
  | none => none
  | some i =>
    let remaining := text.data.drop (i + field_name.length)
    let next_marker_pos := fieldMarkers.foldl (nextMarkerStep remaining) remaining.length
    let field_value := stripWs (remaining.take next_marker_pos)
    if field_value = [] then none else some (String.mk field_value)

/-! Fetcher state machines. -/

/-- Cache fields of `WaterStopsService` (`water_stops_service.py`
lines 21-23). -/
structure WaterState where
  cache : Option (List WaterStop)
  cache_time : Option Nat
deriving DecidableEq

/-- Translation of `get_water_stops` (`water_stops_service.py`
lines 25-95).  The Python cache test is `if self.cache and
self.cache_time:` — `self.cache` is truthy only when it is a non-empty
list, hence the `c ≠ []` test.  On a successful fetch the cache is
replaced; on an exception the method returns `[]` with the state
untouched. -/
def get_water_stops (st : WaterState) (now : Nat)
    (fetched : Except String (List WaterStop)) :
    List WaterStop × WaterState × Bool :=
  let doFetch : List WaterStop × WaterState × Bool :=
    match fetched with
    | .ok stops => (stops, ⟨some stops, some now⟩, true)
    | .error _ => ([], st, true)
  match st.cache, st.cache_time with
  | some c, some t =>
    if c ≠ [] then
      if now - t < 30 then (c, st, false) else doFetch
    else doFetch
  | _, _ => doFetch

/-- Dedup key of an electricity stop (`electricity_stops_service.py`
line 68). -/
def dedupKey (s : ElecStop) : String × String × String × ECategory :=
  (s.location, s.start, s.«end», s.category)

/-- Translation of the dedup loop of `get_electricity_stops`
(`electricity_stops_service.py` lines 64-71), with the `seen` set
carried as a list of keys. -/
def dedupStops (seen : List (String × String × String × ECategory)) :
    List ElecStop → List ElecStop
  | [] => []
  | s :: rest =>
    if dedupKey s ∈ seen then dedupStops seen rest
    else s :: dedupStops (dedupKey s :: seen) rest

/-- Cache fields of `ElectricityStopsService`
(`electricity_stops_service.py` lines 21-23). -/
structure ElecState where
  cache : Option (List ElecStop)
  cache_time : Option Nat
deriving DecidableEq

/-- Translation of `get_electricity_stops`
(`electricity_stops_service.py` lines 25-82).  The cache test here is
`if self.cache is not None and self.cache_time:`, so a cached empty
list IS served from the cache.  A successful fetch deduplicates the
collected stops and caches the result (the early `if not
municipality_ids` path caches `[]`, which coincides with `dedupStops []
[] = []`).  An exception returns `[]` with the state untouched. -/
def get_electricity_stops (st : ElecState) (now : Nat)
    (fetched : Except String (List ElecStop)) :
    List ElecStop × ElecState × Bool :=
  let doFetch : List ElecStop × ElecState × Bool :=
    match fetched with
    | .ok stops =>
      let unique_stops := dedupStops [] stops
      (unique_stops, ⟨some unique_stops, some now⟩, true)
    | .error _ => ([], st, true)
  match st.cache, st.cache_time with
  | some c, some t =>
    if now - t < 30 then (c, st, false) else doFetch
  | _, _ => doFetch

/-! Water formatter (`water_stops_service.py` lines 221-324). -/

/-- Fixed banner header of the water formatter
(`water_stops_service.py` lines 242-243). -/
def waterHeader : String :=
  "💧 **Water Supply Interruptions**\n\n_Sofia Water announces the following interruptions:_\n\n"

/-- Section banner `⚡ **CURRENT STOPS** ({n})` of the single-message
path (`water_stops_service.py` line 247). -/
def waterCurrentBanner (n : Nat) : String :=
  "⚡ **CURRENT STOPS** (" ++ Nat.repr n ++ ")\n\n"

/-- Part banner `⚡ **CURRENT STOPS** (Part {k})` of the overflow path
(`water_stops_service.py` lines 261 and 271). -/
def waterCurrentPartBanner (k : Nat) : String :=
  "⚡ **CURRENT STOPS** (Part " ++ Nat.repr k ++ ")\n\n"

/-- Section banner `📋 **PLANNED STOPS** ({n})`
(`water_stops_service.py` line 282). -/
def waterPlannedBanner (n : Nat) : String :=
  "📋 **PLANNED STOPS** (" ++ Nat.repr n ++ ")\n\n"

/-- Part banner `📋 **PLANNED STOPS** (Part {k})`
(`water_stops_service.py` lines 295 and 305). -/
def waterPlannedPartBanner (k : Nat) : String :=
  "📋 **PLANNED STOPS** (Part " ++ Nat.repr k ++ ")\n\n"

/-- One current-stop entry (`water_stops_service.py` lines 255-256 and
267): two lines, the location truncated to 100 code points. -/
def waterCurrentEntry (i : Nat) (stop : WaterStop) : String :=
  "**" ++ Nat.repr i ++ ".** " ++ pySlice 100 stop.location ++ "\n   ⏰ " ++
    stop.start ++ " → " ++ stop.«end» ++ "\n\n"

/-- One planned-stop entry (`water_stops_service.py` lines 289-290 and
301). -/
def waterPlannedEntry (i : Nat) (stop : WaterStop) : String :=
  "**" ++ Nat.repr i ++ ".** " ++ pySlice 100 stop.location ++ "\n   📅 " ++
    stop.start ++ " → " ++ stop.«end» ++ "\n\n"

/-- Next-part banner of the current-stops overflow loop: `Part
{len(messages) + 1}` evaluated right after the full chunk was appended
(`water_stops_service.py` line 271). -/
def waterCurrentMk (msgs : List String) : String :=
  waterCurrentPartBanner (msgs.length + 1)

/-- Python: the count of earlier messages containing the word CURRENT
(`water_stops_service.py` line 305). -/
def countCurrentIn (msgs : List String) : Nat :=
  (msgs.filter (fun m => strContains m "CURRENT")).length

/-- Next-part banner of the planned-stops overflow loop
(`water_stops_service.py` line 305). -/
def waterPlannedMk (msgs : List String) : String :=
  waterPlannedPartBanner (msgs.length - countCurrentIn msgs + 1)

/-- The current-stops block of `format_water_stops_message`
(`water_stops_service.py` lines 246-278), acting on the accumulated
`messages` list. -/
def waterCurrentSection (messages : List String) (current_stops : List WaterStop) :
    List String :=
  if current_stops = [] then messages
  else
    let entries := numberEntries waterCurrentEntry 1 current_stops
    let current_msg :=
      waterHeader ++ waterCurrentBanner current_stops.length ++ strJoin entries
    if 1900 < current_msg.length then
      chunkLoop waterCurrentMk messages (waterHeader ++ waterCurrentPartBanner 1) entries
    else messages ++ [current_msg]

/-- The planned-stops block of `format_water_stops_message`
(`water_stops_service.py` lines 281-312). -/
def waterPlannedSection (messages : List String) (planned_stops : List WaterStop) :
    List String :=
  if planned_stops = [] then messages
  else
    let entries := numberEntries waterPlannedEntry 1 planned_stops
    let planned_msg := waterPlannedBanner planned_stops.length ++ strJoin entries
    if 1900 < planned_msg.length then
      chunkLoop waterPlannedMk messages (waterPlannedPartBanner 1) entries
    else messages ++ [planned_msg]

/-- The `messages` list built by `format_water_stops_message` before the
footer is attached (`water_stops_service.py` lines 235-312): the
current-stops block runs first on the empty list, then the
planned-stops block on its result. -/
def waterMessages (stops : List WaterStop) : List String :=
  waterPlannedSection
    (waterCurrentSection [] (stops.filter (fun s => decide (s.category = WCategory.current))))
    (stops.filter (fun s => decide (s.category = WCategory.planned)))

/-- Footer pool of the water formatter (`water_stops_service.py`
lines 316-321). -/
def waterFooters : List String :=
  ["\n_Do fill your kettle beforehand._",
   "\n_The Victorians managed with pumps._",
   "\n_Municipal inconvenience, as scheduled._",
   "\n_Mustn\x27t grumble._"]

/-- Translation of `format_water_stops_message`
(`water_stops_service.py` lines 221-324).  `footer_idx` stands for the
`random.choice` draw. -/
def format_water_stops_message (stops : List WaterStop) (footer_idx : Nat) : FmtResult :=
  if stops = [] then .noMsg
  else
    let messages := waterMessages stops
    let messages :=
      if messages = [] then messages
      else appendToLast (waterFooters.getD (footer_idx % waterFooters.length) "") messages
    match messages with
    | [] => .noMsg
    | [m] => .one m
    | ms => .many ms

/-! Electricity formatter (`electricity_stops_service.py`
lines 201-319). -/

/-- Fixed banner header of the electricity formatter
(`electricity_stops_service.py` lines 222-223). -/
def elecHeader : String :=
  "**Electricity Supply Interruptions**\n\n_ERM Zapad announces the following interruptions:_\n\n"

/-- Section banner `**CURRENT OUTAGES** ({n})`
(`electricity_stops_service.py` line 227). -/
def elecCurrentBanner (n : Nat) : String :=
  "**CURRENT OUTAGES** (" ++ Nat.repr n ++ ")\n\n"

/-- Part banner `**CURRENT OUTAGES** (Part {k})`
(`electricity_stops_service.py` lines 248 and 258). -/
def elecCurrentPartBanner (k : Nat) : String :=
  "**CURRENT OUTAGES** (Part " ++ Nat.repr k ++ ")\n\n"

/-- Section banner `**PLANNED MAINTENANCE** ({n})`
(`electricity_stops_service.py` line 269). -/
def elecPlannedBanner (n : Nat) : String :=
  "**PLANNED MAINTENANCE** (" ++ Nat.repr n ++ ")\n\n"

/-- Part banner `**PLANNED MAINTENANCE** (Part {k})`
(`electricity_stops_service.py` lines 289 and 300). -/
def elecPlannedPartBanner (k : Nat) : String :=
  "**PLANNED MAINTENANCE** (Part " ++ Nat.repr k ++ ")\n\n"

/-- Python `str.upper()` modelled code-point-wise with `Char.toUpper`
(the test below only compares it on like-for-like strings). -/
def toUpperStr (s : String) : String := String.mk (s.data.map Char.toUpper)

/-- The `loc_str` of the single-message path
(`electricity_stops_service.py` lines 237-241 and 278-282): truncated
location, plus `, municipality` when the municipality is non-empty and
not already contained in the location (case-insensitively), plus
` (region)` when the region is non-empty. -/
def elecLocStr (stop : ElecStop) : String :=
  let location := pySlice 80 stop.location
  let l1 :=
    if stop.municipality ≠ "" ∧
        strContains (toUpperStr location) (toUpperStr stop.municipality) = false then
      location ++ ", " ++ stop.municipality
    else location
  if stop.region ≠ "" then l1 ++ " (" ++ stop.region ++ ")" else l1

/-- One entry of the single-message path, with municipality/region
context (`electricity_stops_service.py` lines 243-244 and 284-285). -/
def elecLongEntry (i : Nat) (stop : ElecStop) : String :=
  "**" ++ Nat.repr i ++ ".** " ++ elecLocStr stop ++ "\n   " ++
    stop.start ++ " - " ++ stop.«end» ++ "\n\n"

/-- One entry of the overflow path: location and times only, NO
municipality/region context (`electricity_stops_service.py` lines 254
and 295). -/
def elecShortEntry (i : Nat) (stop : ElecStop) : String :=
  "**" ++ Nat.repr i ++ ".** " ++ pySlice 80 stop.location ++ "\n   " ++
    stop.start ++ " - " ++ stop.«end» ++ "\n\n"

/-- Next-part banner of the current-outages overflow loop
(`electricity_stops_service.py` line 258). -/
def elecCurrentMk (msgs : List String) : String :=
  elecCurrentPartBanner (msgs.length + 1)

/-- Python: the count of earlier messages containing the word PLANNED
(`electricity_stops_service.py` line 299). -/
def countPlannedIn (msgs : List String) : Nat :=
  (msgs.filter (fun m => strContains m "PLANNED")).length

/-- Next-part banner of the planned-maintenance overflow loop
(`electricity_stops_service.py` lines 299-300). -/
def elecPlannedMk (msgs : List String) : String :=
  elecPlannedPartBanner (countPlannedIn msgs + 1)

/-- The unplanned-outages block of `format_electricity_stops_message`
(`electricity_stops_service.py` lines 226-265).  The overflow test uses
the long entries, but the overflow loop re-renders each record as a
short entry. -/
def elecCurrentSection (messages : List String) (unplanned_stops : List ElecStop) :
    List String :=
  if unplanned_stops = [] then messages
  else
    let current_msg :=
      elecHeader ++ elecCurrentBanner unplanned_stops.length ++
        strJoin (numberEntries elecLongEntry 1 unplanned_stops)
    if 1900 < current_msg.length then
      chunkLoop elecCurrentMk messages (elecHeader ++ elecCurrentPartBanner 1)
        (numberEntries elecShortEntry 1 unplanned_stops)
    else messages ++ [current_msg]

/-- The planned-maintenance block of `format_electricity_stops_message`
(`electricity_stops_service.py` lines 268-307). -/
def elecPlannedSection (messages : List String) (planned_stops : List ElecStop) :
    List String :=
  if planned_stops = [] then messages
  else
    let planned_msg :=
      elecPlannedBanner planned_stops.length ++
        strJoin (numberEntries elecLongEntry 1 planned_stops)
    if 1900 < planned_msg.length then
      chunkLoop elecPlannedMk messages (elecPlannedPartBanner 1)
        (numberEntries elecShortEntry 1 planned_stops)
    else messages ++ [planned_msg]

/-- The `messages` list built by `format_electricity_stops_message`
before the footer is attached (`electricity_stops_service.py`
lines 215-307). -/
def elecMessages (stops : List ElecStop) : List String :=
  elecPlannedSection
    (elecCurrentSection [] (stops.filter (fun s => decide (s.category = ECategory.unplanned))))
    (stops.filter (fun s => decide (s.category = ECategory.planned)))

/-- Footer pool of the electricity formatter
(`electricity_stops_service.py` lines 311-316). -/
def elecFooters : List String :=
  ["\n_Do charge your devices beforehand._",
   "\n_The Victorians managed with gas lamps._",
   "\n_Modern inconvenience, as scheduled._",
   "\n_Best locate the candles._"]

/-- Translation of `format_electricity_stops_message`
(`electricity_stops_service.py` lines 201-319). -/
def format_electricity_stops_message (stops : List ElecStop) (footer_idx : Nat) : FmtResult :=
  if stops = [] then .noMsg
  else
    let messages := elecMessages stops
    let messages :=
      if messages = [] then messages
      else appendToLast (elecFooters.getD (footer_idx % elecFooters.length) "") messages
    match messages with
    | [] => .noMsg
    | [m] => .one m
    | ms => .many ms

/-! Derived definitions and concrete records used by the verification. -/

/-- The entry renderings that actually end up inside the chunks of the
electricity current-outages section: short entries when the section
overflows (the overflow loop re-renders records without
municipality/region), long entries otherwise. -/
def elecCurrentChunkEntries (u : List ElecStop) : List String :=
  if 1900 < (elecHeader ++ elecCurrentBanner u.length ++
      strJoin (numberEntries elecLongEntry 1 u)).length
  then numberEntries elecShortEntry 1 u
  else numberEntries elecLongEntry 1 u

/-- Entry renderings inside the chunks of the electricity
planned-maintenance section. -/
def elecPlannedChunkEntries (p : List ElecStop) : List String :=
  if 1900 < (elecPlannedBanner p.length ++
      strJoin (numberEntries elecLongEntry 1 p)).length
  then numberEntries elecShortEntry 1 p
  else numberEntries elecLongEntry 1 p

/-- The water fetcher answers from cache iff `self.cache` is truthy (a
non-empty list), `self.cache_time` is set, and the entry is fresh. -/
def waterCacheHit (st : WaterState) (now : Nat) : Bool :=
  match st.cache, st.cache_time with
  | some c, some t => decide (c ≠ []) && decide (now - t < 30)
  | _, _ => false

/-- The electricity fetcher answers from cache iff `self.cache` is not
`None` (empty list included), `self.cache_time` is set, and the entry is
fresh. -/
def elecCacheHit (st : ElecState) (now : Nat) : Bool :=
  match st.cache, st.cache_time with
  | some _, some t => decide (now - t < 30)
  | _, _ => false

/-- A concrete water-stop record used in concrete evaluations. -/
def sampleWaterStop : WaterStop :=
  ⟨"бул. Витоша", "Авария", "", "08:00", "16:00", WCategory.current⟩

/-- A planned electricity outage used in concrete evaluations. -/
def sampleElecStop : ElecStop :=
  ⟨"ж.к. Люлин", "Столична", "София-град", "09:00", "17:00", ECategory.planned, "Планирана"⟩

/-- A second, distinct electricity outage. -/
def sampleElecStop2 : ElecStop :=
  ⟨"с. Бистрица", "Панчарево", "София-град", "10:00", "12:00", ECategory.unplanned, "Непланирана"⟩

/-- A planned water stop used in concrete evaluations. -/
def sampleWaterStop2 : WaterStop :=
  ⟨"кв. Лозенец", "Планирано", "", "10:00", "18:00", WCategory.planned⟩

/-- A 2000-character field value, long enough to overflow a section on
its own. -/
def longStart : String := String.mk (List.replicate 2000 'x')

/-- An unplanned electricity outage whose start field is `longStart`. -/
def sampleElecStopLong : ElecStop :=
  ⟨"ж.к. Младост", "Столична", "София-град", longStart, "23:00",
    ECategory.unplanned, "Непланирана"⟩

/-- The chunk list of a `FmtResult`. -/
def chunksOf : FmtResult → List String
  | .noMsg => []
  | .one m => [m]
  | .many ms => ms

/-- All rendered entries of the water formatter: current entries then
planned entries, each group numbered from 1. -/
def waterAllEntries (stops : List WaterStop) : List String :=
  numberEntries waterCurrentEntry 1
    (stops.filter (fun s => decide (s.category = WCategory.current))) ++
  numberEntries waterPlannedEntry 1
    (stops.filter (fun s => decide (s.category = WCategory.planned)))

/-- The short-form entries the electricity overflow loops iterate over. -/
def elecLoopEntries (stops : List ElecStop) : List String :=
  numberEntries elecShortEntry 1
    (stops.filter (fun s => decide (s.category = ECategory.unplanned))) ++
  numberEntries elecShortEntry 1
    (stops.filter (fun s => decide (s.category = ECategory.planned)))

/-- The entries that actually appear inside the electricity chunks
(long form for a section that fits in one message, short form for an
overflowing section). -/
def elecAllChunkEntries (stops : List ElecStop) : List String :=
  elecCurrentChunkEntries
    (stops.filter (fun s => decide (s.category = ECategory.unplanned))) ++
  elecPlannedChunkEntries
    (stops.filter (fun s => decide (s.category = ECategory.planned)))

/-- A current water stop whose start field is `longStart`. -/
def sampleWaterStopLong : WaterStop :=
  ⟨"бул. Черни връх", "Авария", "", longStart, "20:00", WCategory.current⟩

/-! Basic string and helper lemmas. -/

/-- Sum of the lengths of a list of strings. -/
def entrySum (es : List String) : Nat := (es.map String.length).sum

theorem strJoin_length (l : List String) : (strJoin l).length = entrySum l := by
  induction l with
  | nil => rfl
  | cons s rest ih => simp [strJoin, String.length_append, entrySum, ih]

theorem entrySum_append (a b : List String) : entrySum (a ++ b) = entrySum a + entrySum b := by
  simp [entrySum]

theorem strLength_eq_zero {s : String} (h : s.length = 0) : s = "" :=
  String.ext (List.length_eq_zero.mp h)

theorem strAppend_ne_left {s : String} (t : String) (h : s ≠ "") : s ++ t ≠ "" := by
  intro he
  apply h
  have hl := congrArg String.length he
  rw [String.length_append] at hl
  have h0 : ("" : String).length = 0 := rfl
  exact strLength_eq_zero (by omega)

theorem strJoin_cons (s : String) (l : List String) : strJoin (s :: l) = s ++ strJoin l := rfl

theorem numberEntries_length (render : Nat → α → String) :
    ∀ (i : Nat) (l : List α), (numberEntries render i l).length = l.length := by
  intro i l
  induction l generalizing i with
  | nil => rfl
  | cons s rest ih => simp [numberEntries, ih]

theorem appendToLast_length (s : String) : ∀ l : List String, (appendToLast s l).length = l.length := by
  intro l
  induction l with
  | nil => rfl
  | cons m ms ih =>
    cases ms with
    | nil => rfl
    | cons m2 ms2 => simp [appendToLast] at ih ⊢; exact ih

/-! chunkLoop lemmas. -/

theorem chunkLoop_eq_append (mk : List String → String) :
    ∀ (es msgs : List String) (chunk : String),
    ∃ rest, chunkLoop mk msgs chunk es = msgs ++ rest ∧ (chunk ≠ "" → rest ≠ []) := by
  intro es
  induction es with
  | nil =>
    intro msgs chunk
    by_cases h : chunk = ""
    · exact ⟨[], by simp [chunkLoop, h], fun hc => absurd h hc⟩
    · exact ⟨[chunk], by simp [chunkLoop, h], fun _ => by simp⟩
  | cons e rest ih =>
    intro msgs chunk
    rw [chunkLoop]
    by_cases h : 1900 < chunk.length + e.length
    · rw [if_pos h]
      obtain ⟨r, hr, _⟩ := ih (msgs ++ [chunk]) (mk (msgs ++ [chunk]) ++ e)
      exact ⟨[chunk] ++ r, by rw [hr, List.append_assoc], fun _ => by simp⟩
    · rw [if_neg h]
      obtain ⟨r, hr, hne⟩ := ih msgs (chunk ++ e)
      exact ⟨r, hr, fun hc => hne (strAppend_ne_left e hc)⟩

theorem chunkLoop_length_le (mk : List String → String) :
    ∀ (es msgs : List String) (chunk : String),
    (chunkLoop mk msgs chunk es).length ≤ msgs.length + es.length + 1 := by
  intro es
  induction es with
  | nil =>
    intro msgs chunk
    rw [chunkLoop]
    split
    · simp
    · simp
  | cons e rest ih =>
    intro msgs chunk
    rw [chunkLoop]
    split
    · have := ih (msgs ++ [chunk]) (mk (msgs ++ [chunk]) ++ e)
      simp only [List.length_append, List.length_cons, List.length_nil] at this ⊢
      omega
    · have := ih msgs (chunk ++ e)
      simp only [List.length_cons] at this ⊢
      omega

theorem chunkLoop_chunk_le (mk : List String → String) (M : Nat) :
    ∀ (es msgs : List String) (chunk : String),
    msgs.length + es.length < M →
    (∀ c ∈ msgs, c.length ≤ 1900) →
    chunk.length ≤ 1900 →
    (∀ ms : List String, ms.length < M → ∀ e ∈ es, (mk ms).length + e.length ≤ 1900) →
    ∀ c ∈ chunkLoop mk msgs chunk es, c.length ≤ 1900 := by
  intro es
  induction es with
  | nil =>
    intro msgs chunk _ hmsgs hchunk _ c hc
    rw [chunkLoop] at hc
    split at hc
    · exact hmsgs c hc
    · rcases List.mem_append.mp hc with h | h
      · exact hmsgs c h
      · simp at h; exact h ▸ hchunk
  | cons e rest ih =>
    intro msgs chunk hM hmsgs hchunk hmk c hc
    simp only [List.length_cons] at hM
    rw [chunkLoop] at hc
    split at hc
    · refine ih (msgs ++ [chunk]) (mk (msgs ++ [chunk]) ++ e)
        (by simp only [List.length_append, List.length_singleton]; omega) ?_ ?_ ?_ c hc
      · intro d hd
        rcases List.mem_append.mp hd with h | h
        · exact hmsgs d h
        · simp at h; exact h ▸ hchunk
      · rw [String.length_append]
        exact hmk (msgs ++ [chunk])
          (by simp only [List.length_append, List.length_singleton]; omega) e (by simp)
      · intro ms hms d hd
        exact hmk ms hms d (by simp [hd])
    · refine ih msgs (chunk ++ e) (by omega) hmsgs ?_ ?_ c hc
      · rw [String.length_append]; omega
      · intro ms hms d hd
        exact hmk ms hms d (by simp [hd])

theorem chunkLoop_decomp (mk : List String → String) :
    ∀ (es msgs : List String) (chunk : String),
    chunk ≠ "" → (∀ ms, mk ms ≠ "") →
    ∃ (bs : List String) (gs : List (List String)),
      bs.length = gs.length ∧
      gs.flatten = es ∧
      chunkLoop mk msgs chunk es =
        msgs ++ List.zipWith (fun b g => b ++ strJoin g) bs gs ∧
      bs.head? = some chunk ∧
      (∀ b ∈ bs.tail, ∃ ms, b = mk ms) := by
  intro es
  induction es with
  | nil =>
    intro msgs chunk hc _
    refine ⟨[chunk], [[]], rfl, rfl, ?_, rfl, by simp⟩
    simp [chunkLoop, hc, strJoin]
  | cons e rest ih =>
    intro msgs chunk hc hmk
    rw [chunkLoop]
    by_cases h : 1900 < chunk.length + e.length
    · rw [if_pos h]
      obtain ⟨bs', gs', hlen, hjoin, hout, hhead, htail⟩ :=
        ih (msgs ++ [chunk]) (mk (msgs ++ [chunk]) ++ e)
          (strAppend_ne_left e (hmk _)) hmk
      cases bs' with
      | nil => simp at hhead
      | cons b0 bs'' =>
        cases gs' with
        | nil => simp at hlen
        | cons g0 gs'' =>
          simp only [List.head?_cons, Option.some.injEq] at hhead
          refine ⟨chunk :: mk (msgs ++ [chunk]) :: bs'', [] :: (e :: g0) :: gs'', ?_, ?_, ?_, rfl, ?_⟩
          · simp only [List.length_cons] at hlen ⊢; omega
          · simp only [List.flatten_cons] at hjoin ⊢
            simp only [List.nil_append, List.cons_append]
            rw [← hjoin]
          · rw [hout]
            have h1 : chunk ++ strJoin [] = chunk := String.append_empty chunk
            have h2 : mk (msgs ++ [chunk]) ++ strJoin (e :: g0) = b0 ++ strJoin g0 := by
              rw [hhead, strJoin_cons, String.append_assoc]
            simp only [List.zipWith_cons_cons]
            rw [h1, h2]
            simp [List.append_assoc]
          · intro b hb
            simp only [List.tail_cons] at htail
            simp only [List.tail_cons, List.mem_cons] at hb
            rcases hb with hb | hb
            · exact ⟨msgs ++ [chunk], hb⟩
            · exact htail b hb
    · rw [if_neg h]
      obtain ⟨bs', gs', hlen, hjoin, hout, hhead, htail⟩ :=
        ih msgs (chunk ++ e) (strAppend_ne_left e hc) hmk
      cases bs' with
      | nil => simp at hhead
      | cons b0 bs'' =>
        cases gs' with
        | nil => simp at hlen
        | cons g0 gs'' =>
          simp only [List.head?_cons, Option.some.injEq] at hhead
          refine ⟨chunk :: bs'', (e :: g0) :: gs'', ?_, ?_, ?_, rfl, ?_⟩
          · simp only [List.length_cons] at hlen ⊢; omega
          · simp only [List.flatten_cons] at hjoin ⊢
            simp only [List.cons_append]
            rw [← hjoin]
          · rw [hout]
            have h2 : chunk ++ strJoin (e :: g0) = b0 ++ strJoin g0 := by
              rw [hhead, strJoin_cons, String.append_assoc]
            simp only [List.zipWith_cons_cons]
            rw [h2]
          · intro b hb
            simp only [List.tail_cons] at htail hb
            exact htail b hb

theorem strNe_empty_of_pos {s : String} (h : 0 < s.length) : s ≠ "" := by
  intro he
  rw [he] at h
  simp at h

theorem reprLen_le_three : ∀ n < 301, (Nat.repr n).length ≤ 3 := by decide

/-- Generic specification of the overflow-or-single-message shape shared
by all four formatter sections: the produced chunks decompose into a
banner plus a consecutive group of entries each, the groups concatenate
to the full entry list, every chunk respects the 1900 budget, the first
chunk carries `init` (split path) or `pre` (single-message path), and
every later chunk carries an `mk` banner. -/
theorem sectionIf_spec (pre init : String) (mk : List String → String)
    (test loop msgs : List String) (M : Nat)
    (hinit : init ≠ "") (hmkne : ∀ ms, mk ms ≠ "")
    (hinitlen : init.length ≤ 1900)
    (hM : msgs.length + loop.length < M)
    (hmsgs : ∀ c ∈ msgs, c.length ≤ 1900)
    (hmk : ∀ ms : List String, ms.length < M → ∀ e ∈ loop, (mk ms).length + e.length ≤ 1900) :
    ∃ (bs : List String) (gs : List (List String)),
      bs.length = gs.length ∧ bs ≠ [] ∧
      gs.flatten = (if 1900 < (pre ++ strJoin test).length then loop else test) ∧
      (if 1900 < (pre ++ strJoin test).length then chunkLoop mk msgs init loop
       else msgs ++ [pre ++ strJoin test]) =
        msgs ++ List.zipWith (fun b g => b ++ strJoin g) bs gs ∧
      (∀ c ∈ List.zipWith (fun b g => b ++ strJoin g) bs gs, c.length ≤ 1900) ∧
      bs.head? = some (if 1900 < (pre ++ strJoin test).length then init else pre) ∧
      (∀ b ∈ bs.tail, ∃ ms, b = mk ms) := by
  by_cases hov : 1900 < (pre ++ strJoin test).length
  · simp only [if_pos hov]
    obtain ⟨bs, gs, hlen, hflat, hout, hhead, htail⟩ :=
      chunkLoop_decomp mk loop msgs init hinit hmkne
    refine ⟨bs, gs, hlen, ?_, hflat, hout, ?_, hhead, htail⟩
    · intro hnil
      rw [hnil] at hhead
      simp at hhead
    · intro c hc
      refine chunkLoop_chunk_le mk M loop msgs init hM hmsgs hinitlen hmk c ?_
      rw [hout]
      exact List.mem_append.mpr (Or.inr hc)
  · simp only [if_neg hov]
    refine ⟨[pre], [test], rfl, by simp, by simp, ?_, ?_, rfl, by simp⟩
    · simp [List.zipWith]
    · intro c hc
      simp only [List.zipWith, List.mem_singleton] at hc
      subst hc
      omega

/-! Banner length facts. -/

theorem waterCurrentPartBanner_length (k : Nat) :
    (waterCurrentPartBanner k).length = 29 + (Nat.repr k).length := by
  have h1 : ("⚡ **CURRENT STOPS** (Part " : String).length = 26 := by decide
  have h2 : (")\n\n" : String).length = 3 := by decide
  simp only [waterCurrentPartBanner, String.length_append, h1, h2]
  omega

theorem waterPlannedPartBanner_length (k : Nat) :
    (waterPlannedPartBanner k).length = 29 + (Nat.repr k).length := by
  have h1 : ("📋 **PLANNED STOPS** (Part " : String).length = 26 := by decide
  have h2 : (")\n\n" : String).length = 3 := by decide
  simp only [waterPlannedPartBanner, String.length_append, h1, h2]
  omega

theorem elecCurrentPartBanner_length (k : Nat) :
    (elecCurrentPartBanner k).length = 29 + (Nat.repr k).length := by
  have h1 : ("**CURRENT OUTAGES** (Part " : String).length = 26 := by decide
  have h2 : (")\n\n" : String).length = 3 := by decide
  simp only [elecCurrentPartBanner, String.length_append, h1, h2]
  omega

theorem elecPlannedPartBanner_length (k : Nat) :
    (elecPlannedPartBanner k).length = 33 + (Nat.repr k).length := by
  have h1 : ("**PLANNED MAINTENANCE** (Part " : String).length = 30 := by decide
  have h2 : (")\n\n" : String).length = 3 := by decide
  simp only [elecPlannedPartBanner, String.length_append, h1, h2]
  omega

theorem waterCurrentMk_ne (ms : List String) : waterCurrentMk ms ≠ "" := by
  apply strNe_empty_of_pos
  rw [waterCurrentMk, waterCurrentPartBanner_length]
  omega

theorem waterPlannedMk_ne (ms : List String) : waterPlannedMk ms ≠ "" := by
  apply strNe_empty_of_pos
  rw [waterPlannedMk, waterPlannedPartBanner_length]
  omega

theorem elecCurrentMk_ne (ms : List String) : elecCurrentMk ms ≠ "" := by
  apply strNe_empty_of_pos
  rw [elecCurrentMk, elecCurrentPartBanner_length]
  omega

theorem elecPlannedMk_ne (ms : List String) : elecPlannedMk ms ≠ "" := by
  apply strNe_empty_of_pos
  rw [elecPlannedMk, elecPlannedPartBanner_length]
  omega

theorem countCurrentIn_le (ms : List String) : countCurrentIn ms ≤ ms.length := by
  exact List.length_filter_le _ ms

theorem countPlannedIn_le (ms : List String) : countPlannedIn ms ≤ ms.length := by
  exact List.length_filter_le _ ms

theorem waterCurrentMk_le (ms : List String) (h : ms.length < 300) :
    (waterCurrentMk ms).length ≤ 32 := by
  rw [waterCurrentMk, waterCurrentPartBanner_length]
  have := reprLen_le_three (ms.length + 1) (by omega)
  omega

theorem waterPlannedMk_le (ms : List String) (h : ms.length < 300) :
    (waterPlannedMk ms).length ≤ 32 := by
  rw [waterPlannedMk, waterPlannedPartBanner_length]
  have hc := countCurrentIn_le ms
  have := reprLen_le_three (ms.length - countCurrentIn ms + 1) (by omega)
  omega

theorem elecCurrentMk_le (ms : List String) (h : ms.length < 300) :
    (elecCurrentMk ms).length ≤ 32 := by
  rw [elecCurrentMk, elecCurrentPartBanner_length]
  have := reprLen_le_three (ms.length + 1) (by omega)
  omega

theorem elecPlannedMk_le (ms : List String) (h : ms.length < 300) :
    (elecPlannedMk ms).length ≤ 36 := by
  rw [elecPlannedMk, elecPlannedPartBanner_length]
  have hc := countPlannedIn_le ms
  have := reprLen_le_three (countPlannedIn ms + 1) (by omega)
  omega

/-! Section specifications. -/

theorem waterCurrentSection_spec (msgs : List String) (cur : List WaterStop)
    (hcur : cur ≠ [])
    (hM : msgs.length + cur.length < 300)
    (hmsgs : ∀ c ∈ msgs, c.length ≤ 1900)
    (hent : ∀ e ∈ numberEntries waterCurrentEntry 1 cur, e.length ≤ 1750) :
    ∃ (bs : List String) (gs : List (List String)),
      bs.length = gs.length ∧ bs ≠ [] ∧
      gs.flatten = numberEntries waterCurrentEntry 1 cur ∧
      waterCurrentSection msgs cur = msgs ++ List.zipWith (fun b g => b ++ strJoin g) bs gs ∧
      (∀ c ∈ List.zipWith (fun b g => b ++ strJoin g) bs gs, c.length ≤ 1900) ∧
      (∃ first, bs.head? = some first ∧
        (first = waterHeader ++ waterCurrentPartBanner 1 ∨
         first = waterHeader ++ waterCurrentBanner cur.length)) ∧
      (∀ b ∈ bs.tail, ∃ ms, b = waterCurrentMk ms) := by
  have hsec : waterCurrentSection msgs cur =
      (if 1900 < ((waterHeader ++ waterCurrentBanner cur.length) ++
          strJoin (numberEntries waterCurrentEntry 1 cur)).length
       then chunkLoop waterCurrentMk msgs (waterHeader ++ waterCurrentPartBanner 1)
         (numberEntries waterCurrentEntry 1 cur)
       else msgs ++ [(waterHeader ++ waterCurrentBanner cur.length) ++
         strJoin (numberEntries waterCurrentEntry 1 cur)]) := by
    unfold waterCurrentSection
    rw [if_neg hcur]
  obtain ⟨bs, gs, h1, h2, h3, h4, h5, h6, h7⟩ :=
    sectionIf_spec (waterHeader ++ waterCurrentBanner cur.length)
      (waterHeader ++ waterCurrentPartBanner 1) waterCurrentMk
      (numberEntries waterCurrentEntry 1 cur) (numberEntries waterCurrentEntry 1 cur) msgs 300
      (strAppend_ne_left _ (by decide))
      waterCurrentMk_ne
      (by
        rw [String.length_append, waterCurrentPartBanner_length]
        have hh : waterHeader.length = 88 := by decide
        have hr : (Nat.repr 1).length = 1 := by decide
        omega)
      (by rw [numberEntries_length]; exact hM)
      hmsgs
      (fun ms hms e he => by
        have h1 := waterCurrentMk_le ms hms
        have h2 := hent e he
        omega)
  refine ⟨bs, gs, h1, h2, ?_, ?_, h5, ?_, h7⟩
  · rw [ite_self] at h3
    exact h3
  · rw [hsec]
    exact h4
  · refine ⟨_, h6, ?_⟩
    split
    · exact Or.inl rfl
    · exact Or.inr rfl

theorem waterPlannedSection_spec (msgs : List String) (plan : List WaterStop)
    (hplan : plan ≠ [])
    (hM : msgs.length + plan.length < 300)
    (hmsgs : ∀ c ∈ msgs, c.length ≤ 1900)
    (hent : ∀ e ∈ numberEntries waterPlannedEntry 1 plan, e.length ≤ 1750) :
    ∃ (bs : List String) (gs : List (List String)),
      bs.length = gs.length ∧ bs ≠ [] ∧
      gs.flatten = numberEntries waterPlannedEntry 1 plan ∧
      waterPlannedSection msgs plan = msgs ++ List.zipWith (fun b g => b ++ strJoin g) bs gs ∧
      (∀ c ∈ List.zipWith (fun b g => b ++ strJoin g) bs gs, c.length ≤ 1900) ∧
      (∃ first, bs.head? = some first ∧
        (first = waterPlannedPartBanner 1 ∨
         first = waterPlannedBanner plan.length)) ∧
      (∀ b ∈ bs.tail, ∃ ms, b = waterPlannedMk ms) := by
  have hsec : waterPlannedSection msgs plan =
      (if 1900 < (waterPlannedBanner plan.length ++
          strJoin (numberEntries waterPlannedEntry 1 plan)).length
       then chunkLoop waterPlannedMk msgs (waterPlannedPartBanner 1)
         (numberEntries waterPlannedEntry 1 plan)
       else msgs ++ [waterPlannedBanner plan.length ++
         strJoin (numberEntries waterPlannedEntry 1 plan)]) := by
    unfold waterPlannedSection
    rw [if_neg hplan]
  obtain ⟨bs, gs, h1, h2, h3, h4, h5, h6, h7⟩ :=
    sectionIf_spec (waterPlannedBanner plan.length)
      (waterPlannedPartBanner 1) waterPlannedMk
      (numberEntries waterPlannedEntry 1 plan) (numberEntries waterPlannedEntry 1 plan) msgs 300
      (waterPlannedMk_ne [])
      waterPlannedMk_ne
      (by
        rw [waterPlannedPartBanner_length]
        have hr : (Nat.repr 1).length = 1 := by decide
        omega)
      (by rw [numberEntries_length]; exact hM)
      hmsgs
      (fun ms hms e he => by
        have h1 := waterPlannedMk_le ms hms
        have h2 := hent e he
        omega)
  refine ⟨bs, gs, h1, h2, ?_, ?_, h5, ?_, h7⟩
  · rw [ite_self] at h3
    exact h3
  · rw [hsec]
    exact h4
  · refine ⟨_, h6, ?_⟩
    split
    · exact Or.inl rfl
    · exact Or.inr rfl

theorem elecCurrentSection_spec (msgs : List String) (u : List ElecStop)
    (hu : u ≠ [])
    (hM : msgs.length + u.length < 300)
    (hmsgs : ∀ c ∈ msgs, c.length ≤ 1900)
    (hent : ∀ e ∈ numberEntries elecShortEntry 1 u, e.length ≤ 1750) :
    ∃ (bs : List String) (gs : List (List String)),
      bs.length = gs.length ∧ bs ≠ [] ∧
      gs.flatten = elecCurrentChunkEntries u ∧
      elecCurrentSection msgs u = msgs ++ List.zipWith (fun b g => b ++ strJoin g) bs gs ∧
      (∀ c ∈ List.zipWith (fun b g => b ++ strJoin g) bs gs, c.length ≤ 1900) ∧
      (∃ first, bs.head? = some first ∧
        (first = elecHeader ++ elecCurrentPartBanner 1 ∨
         first = elecHeader ++ elecCurrentBanner u.length)) ∧
      (∀ b ∈ bs.tail, ∃ ms, b = elecCurrentMk ms) := by
  have hsec : elecCurrentSection msgs u =
      (if 1900 < ((elecHeader ++ elecCurrentBanner u.length) ++
          strJoin (numberEntries elecLongEntry 1 u)).length
       then chunkLoop elecCurrentMk msgs (elecHeader ++ elecCurrentPartBanner 1)
         (numberEntries elecShortEntry 1 u)
       else msgs ++ [(elecHeader ++ elecCurrentBanner u.length) ++
         strJoin (numberEntries elecLongEntry 1 u)]) := by
    unfold elecCurrentSection
    rw [if_neg hu]
  obtain ⟨bs, gs, h1, h2, h3, h4, h5, h6, h7⟩ :=
    sectionIf_spec (elecHeader ++ elecCurrentBanner u.length)
      (elecHeader ++ elecCurrentPartBanner 1) elecCurrentMk
      (numberEntries elecLongEntry 1 u) (numberEntries elecShortEntry 1 u) msgs 300
      (strAppend_ne_left _ (by decide))
      elecCurrentMk_ne
      (by
        rw [String.length_append, elecCurrentPartBanner_length]
        have hh : elecHeader.length = 90 := by decide
        have hr : (Nat.repr 1).length = 1 := by decide
        omega)
      (by rw [numberEntries_length]; exact hM)
      hmsgs
      (fun ms hms e he => by
        have h1 := elecCurrentMk_le ms hms
        have h2 := hent e he
        omega)
  refine ⟨bs, gs, h1, h2, ?_, ?_, h5, ?_, h7⟩
  · rw [elecCurrentChunkEntries]
    exact h3
  · rw [hsec]
    exact h4
  · refine ⟨_, h6, ?_⟩
    split
    · exact Or.inl rfl
    · exact Or.inr rfl

theorem elecPlannedSection_spec (msgs : List String) (p : List ElecStop)
    (hp : p ≠ [])
    (hM : msgs.length + p.length < 300)
    (hmsgs : ∀ c ∈ msgs, c.length ≤ 1900)
    (hent : ∀ e ∈ numberEntries elecShortEntry 1 p, e.length ≤ 1750) :
    ∃ (bs : List String) (gs : List (List String)),
      bs.length = gs.length ∧ bs ≠ [] ∧
      gs.flatten = elecPlannedChunkEntries p ∧
      elecPlannedSection msgs p = msgs ++ List.zipWith (fun b g => b ++ strJoin g) bs gs ∧
      (∀ c ∈ List.zipWith (fun b g => b ++ strJoin g) bs gs, c.length ≤ 1900) ∧
      (∃ first, bs.head? = some first ∧
        (first = elecPlannedPartBanner 1 ∨
         first = elecPlannedBanner p.length)) ∧
      (∀ b ∈ bs.tail, ∃ ms, b = elecPlannedMk ms) := by
  have hsec : elecPlannedSection msgs p =
      (if 1900 < (elecPlannedBanner p.length ++
          strJoin (numberEntries elecLongEntry 1 p)).length
       then chunkLoop elecPlannedMk msgs (elecPlannedPartBanner 1)
         (numberEntries elecShortEntry 1 p)
       else msgs ++ [elecPlannedBanner p.length ++
         strJoin (numberEntries elecLongEntry 1 p)]) := by
    unfold elecPlannedSection
    rw [if_neg hp]
  obtain ⟨bs, gs, h1, h2, h3, h4, h5, h6, h7⟩ :=
    sectionIf_spec (elecPlannedBanner p.length)
      (elecPlannedPartBanner 1) elecPlannedMk
      (numberEntries elecLongEntry 1 p) (numberEntries elecShortEntry 1 p) msgs 300
      (by
        apply strNe_empty_of_pos
        rw [elecPlannedPartBanner_length]
        omega)
      elecPlannedMk_ne
      (by
        rw [elecPlannedPartBanner_length]
        have hr : (Nat.repr 1).length = 1 := by decide
        omega)
      (by rw [numberEntries_length]; exact hM)
      hmsgs
      (fun ms hms e he => by
        have h1 := elecPlannedMk_le ms hms
        have h2 := hent e he
        omega)
  refine ⟨bs, gs, h1, h2, ?_, ?_, h5, ?_, h7⟩
  · rw [elecPlannedChunkEntries]
    exact h3
  · rw [hsec]
    exact h4
  · refine ⟨_, h6, ?_⟩
    split
    · exact Or.inl rfl
    · exact Or.inr rfl

/-! Sections extend the message list; the extension is non-empty when
the section has records. -/

theorem waterCurrentSection_append (msgs : List String) (cur : List WaterStop) :
    ∃ rest, waterCurrentSection msgs cur = msgs ++ rest ∧ (cur ≠ [] → rest ≠ []) := by
  by_cases hcur : cur = []
  · exact ⟨[], by simp [waterCurrentSection, hcur], fun h => absurd hcur h⟩
  · unfold waterCurrentSection
    rw [if_neg hcur]
    by_cases hov : 1900 < (waterHeader ++ waterCurrentBanner cur.length ++
        strJoin (numberEntries waterCurrentEntry 1 cur)).length
    · rw [if_pos hov]
      obtain ⟨rest, hr, hne⟩ := chunkLoop_eq_append waterCurrentMk
        (numberEntries waterCurrentEntry 1 cur) msgs (waterHeader ++ waterCurrentPartBanner 1)
      exact ⟨rest, hr, fun _ => hne (strAppend_ne_left _ (by decide))⟩
    · rw [if_neg hov]
      exact ⟨_, rfl, fun _ => by simp⟩

theorem waterPlannedSection_append (msgs : List String) (plan : List WaterStop) :
    ∃ rest, waterPlannedSection msgs plan = msgs ++ rest ∧ (plan ≠ [] → rest ≠ []) := by
  by_cases hplan : plan = []
  · exact ⟨[], by simp [waterPlannedSection, hplan], fun h => absurd hplan h⟩
  · unfold waterPlannedSection
    rw [if_neg hplan]
    by_cases hov : 1900 < (waterPlannedBanner plan.length ++
        strJoin (numberEntries waterPlannedEntry 1 plan)).length
    · rw [if_pos hov]
      obtain ⟨rest, hr, hne⟩ := chunkLoop_eq_append waterPlannedMk
        (numberEntries waterPlannedEntry 1 plan) msgs (waterPlannedPartBanner 1)
      exact ⟨rest, hr, fun _ => hne (waterPlannedMk_ne [])⟩
    · rw [if_neg hov]
      exact ⟨_, rfl, fun _ => by simp⟩

theorem elecCurrentSection_append (msgs : List String) (u : List ElecStop) :
    ∃ rest, elecCurrentSection msgs u = msgs ++ rest ∧ (u ≠ [] → rest ≠ []) := by
  by_cases hu : u = []
  · exact ⟨[], by simp [elecCurrentSection, hu], fun h => absurd hu h⟩
  · unfold elecCurrentSection
    rw [if_neg hu]
    by_cases hov : 1900 < (elecHeader ++ elecCurrentBanner u.length ++
        strJoin (numberEntries elecLongEntry 1 u)).length
    · rw [if_pos hov]
      obtain ⟨rest, hr, hne⟩ := chunkLoop_eq_append elecCurrentMk
        (numberEntries elecShortEntry 1 u) msgs (elecHeader ++ elecCurrentPartBanner 1)
      exact ⟨rest, hr, fun _ => hne (strAppend_ne_left _ (by decide))⟩
    · rw [if_neg hov]
      exact ⟨_, rfl, fun _ => by simp⟩

theorem elecPlannedSection_append (msgs : List String) (p : List ElecStop) :
    ∃ rest, elecPlannedSection msgs p = msgs ++ rest ∧ (p ≠ [] → rest ≠ []) := by
  by_cases hp : p = []
  · exact ⟨[], by simp [elecPlannedSection, hp], fun h => absurd hp h⟩
  · unfold elecPlannedSection
    rw [if_neg hp]
    by_cases hov : 1900 < (elecPlannedBanner p.length ++
        strJoin (numberEntries elecLongEntry 1 p)).length
    · rw [if_pos hov]
      obtain ⟨rest, hr, hne⟩ := chunkLoop_eq_append elecPlannedMk
        (numberEntries elecShortEntry 1 p) msgs (elecPlannedPartBanner 1)
      refine ⟨rest, hr, fun _ => hne ?_⟩
      apply strNe_empty_of_pos
      rw [elecPlannedPartBanner_length]
      omega
    · rw [if_neg hov]
      exact ⟨_, rfl, fun _ => by simp⟩

theorem waterMessages_ne_nil {stops : List WaterStop} (h : stops ≠ []) :
    waterMessages stops ≠ [] := by
  obtain ⟨s, hs⟩ := List.exists_mem_of_ne_nil stops h
  rw [waterMessages]
  obtain ⟨r1, hr1, hne1⟩ := waterCurrentSection_append []
    (stops.filter (fun s => decide (s.category = WCategory.current)))
  obtain ⟨r2, hr2, hne2⟩ := waterPlannedSection_append
    (waterCurrentSection [] (stops.filter (fun s => decide (s.category = WCategory.current))))
    (stops.filter (fun s => decide (s.category = WCategory.planned)))
  rw [hr2, hr1]
  cases hcat : s.category with
  | current =>
    have hmem : s ∈ stops.filter (fun s => decide (s.category = WCategory.current)) :=
      List.mem_filter.mpr ⟨hs, by simp [hcat]⟩
    have : r1 ≠ [] := hne1 (List.ne_nil_of_mem hmem)
    simp [this]
  | planned =>
    have hmem : s ∈ stops.filter (fun s => decide (s.category = WCategory.planned)) :=
      List.mem_filter.mpr ⟨hs, by simp [hcat]⟩
    have : r2 ≠ [] := hne2 (List.ne_nil_of_mem hmem)
    simp [this]

theorem elecMessages_ne_nil {stops : List ElecStop} (h : stops ≠ []) :
    elecMessages stops ≠ [] := by
  obtain ⟨s, hs⟩ := List.exists_mem_of_ne_nil stops h
  rw [elecMessages]
  obtain ⟨r1, hr1, hne1⟩ := elecCurrentSection_append []
    (stops.filter (fun s => decide (s.category = ECategory.unplanned)))
  obtain ⟨r2, hr2, hne2⟩ := elecPlannedSection_append
    (elecCurrentSection [] (stops.filter (fun s => decide (s.category = ECategory.unplanned))))
    (stops.filter (fun s => decide (s.category = ECategory.planned)))
  rw [hr2, hr1]
  cases hcat : s.category with
  | unplanned =>
    have hmem : s ∈ stops.filter (fun s => decide (s.category = ECategory.unplanned)) :=
      List.mem_filter.mpr ⟨hs, by simp [hcat]⟩
    have : r1 ≠ [] := hne1 (List.ne_nil_of_mem hmem)
    simp [this]
  | planned =>
    have hmem : s ∈ stops.filter (fun s => decide (s.category = ECategory.planned)) :=
      List.mem_filter.mpr ⟨hs, by simp [hcat]⟩
    have : r2 ≠ [] := hne2 (List.ne_nil_of_mem hmem)
    simp [this]

theorem appendToLast_ne_nil {s : String} {l : List String} (h : l ≠ []) :
    appendToLast s l ≠ [] := by
  intro he
  apply h
  have := appendToLast_length s l
  rw [he] at this
  exact List.length_eq_zero.mp this.symm

/-- C4: the formatters return the absent result exactly for empty input;
for every non-empty record list the result is a (non-absent) message or
message list. -/
theorem format_empty_iff_no_records :
    ∀ (ws : List WaterStop) (es : List ElecStop) (fi fj : Nat),
      (format_water_stops_message ws fi = FmtResult.noMsg ↔ ws = []) ∧
      (format_electricity_stops_message es fj = FmtResult.noMsg ↔ es = []) := by
  intro ws es fi fj
  constructor
  · constructor
    · intro h
      by_contra hne
      rw [format_water_stops_message, if_neg hne] at h
      have hmsgs := waterMessages_ne_nil hne
      have hfoot := appendToLast_ne_nil (s := waterFooters.getD (fi % waterFooters.length) "") hmsgs
      simp only [if_neg hmsgs] at h
      revert h
      cases hx : appendToLast (waterFooters.getD (fi % waterFooters.length) "") (waterMessages ws) with
      | nil => exact absurd hx hfoot
      | cons m ms =>
        cases ms with
        | nil => intro h; cases h
        | cons m2 ms2 => intro h; cases h
    · intro h
      rw [h, format_water_stops_message, if_pos rfl]
  · constructor
    · intro h
      by_contra hne
      rw [format_electricity_stops_message, if_neg hne] at h
      have hmsgs := elecMessages_ne_nil hne
      have hfoot := appendToLast_ne_nil (s := elecFooters.getD (fj % elecFooters.length) "") hmsgs
      simp only [if_neg hmsgs] at h
      revert h
      cases hx : appendToLast (elecFooters.getD (fj % elecFooters.length) "") (elecMessages es) with
      | nil => exact absurd hx hfoot
      | cons m ms =>
        cases ms with
        | nil => intro h; cases h
        | cons m2 ms2 => intro h; cases h
    · intro h
      rw [h, format_electricity_stops_message, if_pos rfl]

/-! Cache-hit predicates and fetcher lemmas. -/

theorem get_water_stops_miss (st : WaterState) (now : Nat)
    (fetched : Except String (List WaterStop)) (h : waterCacheHit st now = false) :
    get_water_stops st now fetched =
      (match fetched with
       | .ok stops => (stops, ⟨some stops, some now⟩, true)
       | .error _ => ([], st, true)) := by
  rcases st with ⟨cache, cache_time⟩
  cases cache with
  | none => rfl
  | some c =>
    cases cache_time with
    | none => rfl
    | some t =>
      simp only [waterCacheHit, Bool.and_eq_false_iff, decide_eq_false_iff_not, not_not] at h
      by_cases hc : c = []
      · subst hc
        simp [get_water_stops]
      · rcases h with h | h
        · exact absurd h hc
        · simp [get_water_stops, hc, h]

theorem get_water_stops_didFetch (st : WaterState) (now : Nat)
    (fetched : Except String (List WaterStop)) (h : waterCacheHit st now = false) :
    (get_water_stops st now fetched).2.2 = true := by
  rw [get_water_stops_miss st now fetched h]
  cases fetched <;> rfl

theorem waterCacheHit_mono {st : WaterState} {now now2 : Nat}
    (h : waterCacheHit st now = false) (hle : now ≤ now2) :
    waterCacheHit st now2 = false := by
  rcases st with ⟨cache, cache_time⟩
  cases cache <;> cases cache_time <;>
    simp only [waterCacheHit, Bool.and_eq_false_iff, decide_eq_false_iff_not, not_not] at h ⊢
  rcases h with h | h
  · exact Or.inl h
  · exact Or.inr (by omega)

theorem get_electricity_stops_miss (st : ElecState) (now : Nat)
    (fetched : Except String (List ElecStop)) (h : elecCacheHit st now = false) :
    get_electricity_stops st now fetched =
      (match fetched with
       | .ok stops => (dedupStops [] stops, ⟨some (dedupStops [] stops), some now⟩, true)
       | .error _ => ([], st, true)) := by
  rcases st with ⟨cache, cache_time⟩
  cases cache with
  | none => rfl
  | some c =>
    cases cache_time with
    | none => rfl
    | some t =>
      simp only [elecCacheHit, decide_eq_false_iff_not] at h
      simp [get_electricity_stops, h]

theorem get_electricity_stops_didFetch (st : ElecState) (now : Nat)
    (fetched : Except String (List ElecStop)) (h : elecCacheHit st now = false) :
    (get_electricity_stops st now fetched).2.2 = true := by
  rw [get_electricity_stops_miss st now fetched h]
  cases fetched <;> rfl

theorem elecCacheHit_mono {st : ElecState} {now now2 : Nat}
    (h : elecCacheHit st now = false) (hle : now ≤ now2) :
    elecCacheHit st now2 = false := by
  rcases st with ⟨cache, cache_time⟩
  cases cache <;> cases cache_time <;>
    simp only [elecCacheHit, decide_eq_false_iff_not] at h ⊢
  omega

/-- C5: a failed fetch (exception inside the `try:` block) returns `[]`
and leaves the cache state untouched, for both fetchers; consequently
the immediately following call misses the cache again and re-attempts
the network work instead of short-circuiting on a failed entry. -/
theorem fetch_failure_empty_result_cache_untouched
    (wst : WaterState) (est : ElecState) (now now2 : Nat) (e1 e2 : String)
    (w2 : Except String (List WaterStop)) (f2 : Except String (List ElecStop))
    (hw : waterCacheHit wst now = false)
    (he : elecCacheHit est now = false)
    (hle : now ≤ now2) :
    get_water_stops wst now (Except.error e1) = ([], wst, true) ∧
    get_electricity_stops est now (Except.error e2) = ([], est, true) ∧
    (get_water_stops wst now2 w2).2.2 = true ∧
    (get_electricity_stops est now2 f2).2.2 = true :=
  ⟨get_water_stops_miss wst now (Except.error e1) hw,
   get_electricity_stops_miss est now (Except.error e2) he,
   get_water_stops_didFetch wst now2 w2 (waterCacheHit_mono hw hle),
   get_electricity_stops_didFetch est now2 f2 (elecCacheHit_mono he hle)⟩

/-- Witness for C5 at a concrete empty-cache state and failing fetch. -/
theorem fetch_failure_empty_result_cache_untouched_witness :
    waterCacheHit ⟨none, none⟩ 0 = false ∧ elecCacheHit ⟨none, none⟩ 0 = false ∧ (0 : Nat) ≤ 5 ∧
    (get_water_stops ⟨none, none⟩ 0 (Except.error "connection reset") = ([], ⟨none, none⟩, true) ∧
     get_electricity_stops ⟨none, none⟩ 0 (Except.error "http 500") = ([], ⟨none, none⟩, true) ∧
     (get_water_stops ⟨none, none⟩ 5 (Except.error "connection reset")).2.2 = true ∧
     (get_electricity_stops ⟨none, none⟩ 5 (Except.ok [])).2.2 = true) :=
  ⟨rfl, rfl, by omega,
   fetch_failure_empty_result_cache_untouched ⟨none, none⟩ ⟨none, none⟩ 0 5
     "connection reset" "http 500" (Except.error "connection reset") (Except.ok [])
     rfl rfl (by omega)⟩

/-- C3 is refuted on the water fetcher: after a successful fetch that
cached the empty list (cache = `some []`, cache_time set), a second call
one minute later — well inside the 30-minute TTL — does NOT return the
cached empty list: the truthiness test `if self.cache and
self.cache_time:` is false for an empty list, so the call re-enters the
network path (third component `true`) and returns the new fetch result.
The electricity fetcher, whose test is `is not None`, serves the cached
empty list without network work (third component `false`). -/
theorem water_cached_empty_list_triggers_refetch :
    get_water_stops ⟨some [], some 0⟩ 1 (Except.ok [sampleWaterStop]) =
      ([sampleWaterStop], ⟨some [sampleWaterStop], some 1⟩, true) ∧
    get_electricity_stops ⟨some [], some 0⟩ 1 (Except.error "network down") =
      ([], ⟨some [], some 0⟩, false) := by
  constructor
  · rfl
  · rfl

/-! Deduplication lemmas (C6). -/

theorem dedupStops_sublist (seen : List (String × String × String × ECategory)) :
    ∀ l : List ElecStop, (dedupStops seen l).Sublist l := by
  intro l
  induction l generalizing seen with
  | nil => simp [dedupStops]
  | cons s rest ih =>
    rw [dedupStops]
    split
    · exact (ih seen).cons s
    · exact (ih (dedupKey s :: seen)).cons₂ s

theorem dedupStops_filter (k : String × String × String × ECategory) :
    ∀ (l : List ElecStop) (seen : List (String × String × String × ECategory)),
      (dedupStops seen l).filter (fun s => decide (dedupKey s = k)) =
        if k ∈ seen then [] else (l.filter (fun s => decide (dedupKey s = k))).take 1 := by
  intro l
  induction l with
  | nil => intro seen; simp [dedupStops]
  | cons s rest ih =>
    intro seen
    rw [dedupStops]
    by_cases hseen : dedupKey s ∈ seen
    · rw [if_pos hseen]
      by_cases hk : k ∈ seen
      · rw [ih seen, if_pos hk, if_pos hk]
      · have hne : ¬ dedupKey s = k := fun he => hk (he ▸ hseen)
        rw [ih seen, if_neg hk, if_neg hk, List.filter_cons_of_neg (by simpa using hne)]
    · rw [if_neg hseen]
      by_cases hk : k ∈ seen
      · have hne : ¬ dedupKey s = k := fun he => hseen (he ▸ hk)
        rw [List.filter_cons_of_neg (by simpa using hne), ih (dedupKey s :: seen),
          if_pos (List.mem_cons_of_mem _ hk), if_pos hk]
      · by_cases hks : dedupKey s = k
        · rw [List.filter_cons_of_pos (by simpa using hks), ih (dedupKey s :: seen),
            if_pos (by simp [hks]), if_neg hk,
            List.filter_cons_of_pos (by simpa using hks)]
          simp
        · rw [List.filter_cons_of_neg (by simpa using hks), ih (dedupKey s :: seen),
            if_neg (by simp [hk]; exact fun he => hks he.symm), if_neg hk,
            List.filter_cons_of_neg (by simpa using hks)]

/-- C6: if an electricity record list contains two or more records with
the same `(location, start, end, category)` tuple, the output of
`get_electricity_stops` (a fresh fetch) is the deduplicated list, it
contains exactly one record with that tuple — the first occurrence — and
it is a sublist of the input, so first-seen order is preserved
overall. -/
theorem elec_dedup_keeps_first_occurrence
    (l : List ElecStop) (k : String × String × String × ECategory) (now : Nat)
    (h2 : 2 ≤ (l.filter (fun s => decide (dedupKey s = k))).length) :
    (get_electricity_stops ⟨none, none⟩ now (Except.ok l)).1 = dedupStops [] l ∧
    (dedupStops [] l).filter (fun s => decide (dedupKey s = k)) =
      (l.filter (fun s => decide (dedupKey s = k))).take 1 ∧
    ((dedupStops [] l).filter (fun s => decide (dedupKey s = k))).length = 1 ∧
    (dedupStops [] l).Sublist l := by
  have hf := dedupStops_filter k l []
  rw [if_neg (by simp)] at hf
  refine ⟨rfl, hf, ?_, dedupStops_sublist [] l⟩
  rw [hf, List.length_take]
  omega

/-- Witness for C6: a list with a duplicated record collapses to one
copy at the first position. -/
theorem elec_dedup_keeps_first_occurrence_witness :
    2 ≤ (([sampleElecStop, sampleElecStop2, sampleElecStop]).filter
        (fun s => decide (dedupKey s = dedupKey sampleElecStop))).length ∧
    ((get_electricity_stops ⟨none, none⟩ 0
        (Except.ok [sampleElecStop, sampleElecStop2, sampleElecStop])).1 =
      dedupStops [] [sampleElecStop, sampleElecStop2, sampleElecStop] ∧
     (dedupStops [] [sampleElecStop, sampleElecStop2, sampleElecStop]).filter
        (fun s => decide (dedupKey s = dedupKey sampleElecStop)) =
      (([sampleElecStop, sampleElecStop2, sampleElecStop]).filter
        (fun s => decide (dedupKey s = dedupKey sampleElecStop))).take 1 ∧
     ((dedupStops [] [sampleElecStop, sampleElecStop2, sampleElecStop]).filter
        (fun s => decide (dedupKey s = dedupKey sampleElecStop))).length = 1 ∧
     (dedupStops [] [sampleElecStop, sampleElecStop2, sampleElecStop]).Sublist
       [sampleElecStop, sampleElecStop2, sampleElecStop]) :=
  ⟨by decide,
   elec_dedup_keeps_first_occurrence [sampleElecStop, sampleElecStop2, sampleElecStop]
     (dedupKey sampleElecStop) 0 (by decide)⟩

/-- C7: for every cache state, clock value and fetch outcome — including
arbitrary exceptions — each `get_stops` returns a plain value (the
cached list, the freshly fetched or deduplicated list, or `[]`), never a
propagated exception, and each formatter returns a well-formed result
for every record list. -/
theorem get_stops_and_format_never_raise
    (wst : WaterState) (est : ElecState) (now : Nat)
    (wf : Except String (List WaterStop)) (ef : Except String (List ElecStop))
    (ws : List WaterStop) (es : List ElecStop) (fi fj : Nat) :
    ((get_water_stops wst now wf).1 = [] ∨
     (∃ c, wst.cache = some c ∧ (get_water_stops wst now wf).1 = c) ∨
     (∃ l, wf = Except.ok l ∧ (get_water_stops wst now wf).1 = l)) ∧
    ((get_electricity_stops est now ef).1 = [] ∨
     (∃ c, est.cache = some c ∧ (get_electricity_stops est now ef).1 = c) ∨
     (∃ l, ef = Except.ok l ∧ (get_electricity_stops est now ef).1 = dedupStops [] l)) ∧
    (format_water_stops_message ws fi = FmtResult.noMsg ∨
     (∃ m, format_water_stops_message ws fi = FmtResult.one m) ∨
     (∃ ms, format_water_stops_message ws fi = FmtResult.many ms)) ∧
    (format_electricity_stops_message es fj = FmtResult.noMsg ∨
     (∃ m, format_electricity_stops_message es fj = FmtResult.one m) ∨
     (∃ ms, format_electricity_stops_message es fj = FmtResult.many ms)) := by
  refine ⟨?_, ?_, ?_, ?_⟩
  · by_cases h : waterCacheHit wst now = false
    · rw [get_water_stops_miss wst now wf h]
      cases wf with
      | ok l => exact Or.inr (Or.inr ⟨l, rfl, rfl⟩)
      | error e => exact Or.inl rfl
    · rcases wst with ⟨cache, cache_time⟩
      cases cache with
      | none => simp [waterCacheHit] at h
      | some c =>
        cases cache_time with
        | none => simp [waterCacheHit] at h
        | some t =>
          simp only [waterCacheHit, Bool.and_eq_false_iff, decide_eq_false_iff_not,
            not_or, not_not] at h
          refine Or.inr (Or.inl ⟨c, rfl, ?_⟩)
          simp [get_water_stops, h.1, h.2]
  · by_cases h : elecCacheHit est now = false
    · rw [get_electricity_stops_miss est now ef h]
      cases ef with
      | ok l => exact Or.inr (Or.inr ⟨l, rfl, rfl⟩)
      | error e => exact Or.inl rfl
    · rcases est with ⟨cache, cache_time⟩
      cases cache with
      | none => simp [elecCacheHit] at h
      | some c =>
        cases cache_time with
        | none => simp [elecCacheHit] at h
        | some t =>
          simp only [elecCacheHit, decide_eq_false_iff_not, not_not] at h
          refine Or.inr (Or.inl ⟨c, rfl, ?_⟩)
          simp [get_electricity_stops, h]
  · rcases hx : format_water_stops_message ws fi with _ | m | ms
    · exact Or.inl rfl
    · exact Or.inr (Or.inl ⟨m, rfl⟩)
    · exact Or.inr (Or.inr ⟨ms, rfl⟩)
  · rcases hx : format_electricity_stops_message es fj with _ | m | ms
    · exact Or.inl rfl
    · exact Or.inr (Or.inl ⟨m, rfl⟩)
    · exact Or.inr (Or.inr ⟨ms, rfl⟩)

/-! findSub correctness (C1). -/

theorem findSub_sound (nd : List Char) :
    ∀ (hay : List Char) (k : Nat), findSub hay nd = some k →
      MatchAt nd hay k ∧ ∀ j < k, ¬ MatchAt nd hay j := by
  intro hay
  induction hay with
  | nil =>
    intro k hk
    rw [findSub] at hk
    split at hk
    · rename_i hcond
      cases hk
      exact ⟨hcond, by omega⟩
    · cases hk
  | cons c t ih =>
    intro k hk
    rw [findSub] at hk
    split at hk
    · rename_i hcond
      cases hk
      exact ⟨hcond, by omega⟩
    · rename_i hcond
      simp only [Option.map_eq_some'] at hk
      obtain ⟨k', hk', hkeq⟩ := hk
      obtain ⟨hmatch, hmin⟩ := ih k' hk'
      subst hkeq
      constructor
      · simpa [MatchAt, List.drop_succ_cons] using hmatch
      · intro j hj
        cases j with
        | zero => simpa [MatchAt] using hcond
        | succ j' =>
          have := hmin j' (by omega)
          simpa [MatchAt, List.drop_succ_cons] using this

theorem findSub_complete (nd : List Char) :
    ∀ (hay : List Char) (k : Nat), MatchAt nd hay k →
      ∃ k' ≤ k, findSub hay nd = some k' := by
  intro hay
  induction hay with
  | nil =>
    intro k hmatch
    rw [MatchAt] at hmatch
    simp only [List.drop_nil, List.take_nil] at hmatch
    refine ⟨0, by omega, ?_⟩
    rw [findSub]
    rw [if_pos (by simp [← hmatch])]
  | cons c t ih =>
    intro k hmatch
    by_cases hcond : (c :: t).take nd.length = nd
    · exact ⟨0, by omega, by rw [findSub, if_pos hcond]⟩
    · cases k with
      | zero =>
        exfalso
        apply hcond
        simpa [MatchAt] using hmatch
      | succ k'' =>
        have hmatch' : MatchAt nd t k'' := by
          simpa [MatchAt, List.drop_succ_cons] using hmatch
        obtain ⟨k', hle, hfind⟩ := ih k'' hmatch'
        exact ⟨k' + 1, by omega, by rw [findSub, if_neg hcond, hfind]; rfl⟩

theorem findSub_first (nd hay : List Char) (k : Nat)
    (hmatch : MatchAt nd hay k) (hmin : ∀ j < k, ¬ MatchAt nd hay j) :
    findSub hay nd = some k := by
  obtain ⟨k', hle, hfind⟩ := findSub_complete nd hay k hmatch
  obtain ⟨hmatch', _⟩ := findSub_sound nd hay k' hfind
  rcases Nat.lt_or_ge k' k with hlt | hge
  · exact absurd hmatch' (hmin k' hlt)
  · have : k' = k := by omega
    subst this
    exact hfind

theorem nextMarkerStep_le (remaining : List Char) (p : Nat) (m : String) :
    nextMarkerStep remaining p m ≤ p := by
  rw [nextMarkerStep]
  split
  · split <;> omega
  · omega

theorem markerFold_le_init (remaining : List Char) :
    ∀ (L : List String) (p : Nat), L.foldl (nextMarkerStep remaining) p ≤ p := by
  intro L
  induction L with
  | nil => intro p; simp
  | cons m L ih =>
    intro p
    calc L.foldl (nextMarkerStep remaining) (nextMarkerStep remaining p m)
        ≤ nextMarkerStep remaining p m := ih _
      _ ≤ p := nextMarkerStep_le remaining p m

theorem markerFold_le_candidate (remaining : List Char) :
    ∀ (L : List String) (p : Nat) (m : String) (q : Nat), m ∈ L →
      findSub remaining m.data = some q →
      L.foldl (nextMarkerStep remaining) p ≤ q := by
  intro L
  induction L with
  | nil => intro p m q hm; cases hm
  | cons m0 L ih =>
    intro p m q hm hfind
    rcases List.mem_cons.mp hm with hm | hm
    · subst hm
      have hstep : nextMarkerStep remaining p m ≤ q := by
        rw [nextMarkerStep]
        simp only [hfind]
        split <;> omega
      calc L.foldl (nextMarkerStep remaining) (nextMarkerStep remaining p m)
          ≤ nextMarkerStep remaining p m := markerFold_le_init remaining L _
        _ ≤ q := hstep
    · exact ih _ m q hm hfind

theorem markerFold_cases (remaining : List Char) :
    ∀ (L : List String) (p : Nat),
      L.foldl (nextMarkerStep remaining) p = p ∨
      ∃ m ∈ L, findSub remaining m.data = some (L.foldl (nextMarkerStep remaining) p) := by
  intro L
  induction L with
  | nil => intro p; exact Or.inl rfl
  | cons m0 L ih =>
    intro p
    rcases ih (nextMarkerStep remaining p m0) with h | ⟨m, hm, hfind⟩
    · rcases hfs : findSub remaining m0.data with _ | q
      · left
        simp only [List.foldl_cons]
        rw [h]
        simp [nextMarkerStep, hfs]
      · by_cases hq : q < p
        · right
          refine ⟨m0, List.mem_cons_self m0 L, ?_⟩
          simp only [List.foldl_cons]
          rw [h]
          simp [nextMarkerStep, hfs, hq]
        · left
          simp only [List.foldl_cons]
          rw [h]
          simp [nextMarkerStep, hfs, hq]
    · exact Or.inr ⟨m, List.mem_cons_of_mem m0 hm, hfind⟩

theorem fieldMarkers_pos : ∀ mk ∈ fieldMarkers, 0 < mk.length := by decide

/-- The minimum search of `_extract_field` stops exactly at the seam
position when a fixed marker sits right after the value and no fixed
marker occurs earlier. -/
theorem markerFold_eq (v m s : String) (hm : m ∈ fieldMarkers)
    (hclean : ∀ mk ∈ fieldMarkers, ∀ j < v.length, ¬ MatchAt mk.data (v ++ m ++ s).data j) :
    fieldMarkers.foldl (nextMarkerStep (v ++ m ++ s).data) (v ++ m ++ s).data.length
      = v.length := by
  have hdata : (v ++ m ++ s).data = v.data ++ (m.data ++ s.data) := by
    simp [String.data_append]
  have hmatch : MatchAt m.data (v ++ m ++ s).data v.length := by
    show ((v ++ m ++ s).data.drop v.length).take m.data.length = m.data
    have hv : v.length = v.data.length := rfl
    rw [hdata, hv, List.drop_left, List.take_left]
  obtain ⟨q, hqle, hqfind⟩ := findSub_complete m.data (v ++ m ++ s).data v.length hmatch
  have hmq := (findSub_sound m.data (v ++ m ++ s).data q hqfind).1
  have hq : q = v.length := by
    rcases Nat.lt_or_ge q v.length with hlt | hge
    · exact absurd hmq (hclean m hm q hlt)
    · omega
  subst hq
  have hub := markerFold_le_candidate (v ++ m ++ s).data fieldMarkers
    (v ++ m ++ s).data.length m v.length hm hqfind
  rcases markerFold_cases (v ++ m ++ s).data fieldMarkers (v ++ m ++ s).data.length
    with hc | ⟨mk, hmk, hfind⟩
  · exfalso
    rw [hc] at hub
    have hml := fieldMarkers_pos m hm
    have hlen : (v ++ m ++ s).data.length = v.data.length + (m.data.length + s.data.length) := by
      rw [hdata]; simp
    have hveq : v.length = v.data.length := rfl
    have hmeq : m.length = m.data.length := rfl
    omega
  · have hmm := (findSub_sound mk.data (v ++ m ++ s).data _ hfind).1
    rcases Nat.lt_or_ge (fieldMarkers.foldl (nextMarkerStep (v ++ m ++ s).data)
        (v ++ m ++ s).data.length) v.length with hlt | hge
    · exact absurd hmm (hclean mk hmk _ hlt)
    · omega

/-- C1 (amended): `_extract_field` cuts the value at the nearest
occurrence of a marker from the FIXED four-element list (Тип:,
Описание:, Начало:, Край:), whatever label is being extracted — not at the
nearest of "the OTHER four labels".  For a text of the form `prefix +
label + value + marker + suffix` where the label first occurs at the
seam, the following marker is one of the four fixed markers, no fixed
marker occurs inside the value, and the stripped value is non-empty,
the call returns `value.strip()`.  (For the label `Местоположение:` the
fixed list coincides with "the other four labels", so the original
claim holds for it; for every other label a following `Местоположение:`
does NOT terminate the slice — see the counterexample.) -/
theorem extract_field_nearest_fixed_marker (p lab v m s : String)
    (hlab : lab ∈ waterLabels) (hm : m ∈ fieldMarkers)
    (hfirst : ∀ j < p.length, ¬ MatchAt lab.data (p ++ lab ++ v ++ m ++ s).data j)
    (hclean : ∀ mk ∈ fieldMarkers, ∀ j < v.length, ¬ MatchAt mk.data (v ++ m ++ s).data j)
    (hne : stripWs v.data ≠ []) :
    extract_field (p ++ lab ++ v ++ m ++ s) lab = some (String.mk (stripWs v.data)) := by
  have hdata1 : (p ++ lab ++ v ++ m ++ s).data =
      p.data ++ (lab.data ++ (v ++ m ++ s).data) := by
    simp [String.data_append]
  have hmatch : MatchAt lab.data (p ++ lab ++ v ++ m ++ s).data p.length := by
    show (((p ++ lab ++ v ++ m ++ s).data).drop p.length).take lab.data.length = lab.data
    have hp : p.length = p.data.length := rfl
    rw [hdata1, hp, List.drop_left, List.take_append_of_le_length (by omega), List.take_length]
  obtain ⟨k, hkle, hkfind⟩ := findSub_complete lab.data _ p.length hmatch
  have hmk := (findSub_sound lab.data _ k hkfind).1
  have hkeq : k = p.length := by
    rcases Nat.lt_or_ge k p.length with hlt | hge
    · exact absurd hmk (hfirst k hlt)
    · omega
  subst hkeq
  have hrem : (p ++ lab ++ v ++ m ++ s).data.drop (p.length + lab.length) =
      (v ++ m ++ s).data := by
    have hdata2 : (p ++ lab ++ v ++ m ++ s).data =
        (p.data ++ lab.data) ++ (v ++ m ++ s).data := by
      simp [String.data_append]
    have hlen : p.length + lab.length = (p.data ++ lab.data).length := by
      rw [List.length_append]
      rfl
    rw [hdata2, hlen, List.drop_left]
  have htake : (v ++ m ++ s).data.take v.length = v.data := by
    have hdata3 : (v ++ m ++ s).data = v.data ++ (m.data ++ s.data) := by
      simp [String.data_append]
    have hv : v.length = v.data.length := rfl
    rw [hdata3, hv, List.take_left]
  simp only [extract_field, hkfind]
  rw [hrem, markerFold_eq v m s hm hclean, htake, if_neg hne]

/-- Witness for the amended C1 at a concrete row text. -/
theorem extract_field_nearest_fixed_marker_witness :
    ("Местоположение:" ∈ waterLabels) ∧ ("Начало:" ∈ fieldMarkers) ∧
    (∀ j < ("Ремонт. " : String).length,
      ¬ MatchAt ("Местоположение:" : String).data
        (("Ремонт. " ++ "Местоположение:" ++ " ул. Шипка 12 " ++ "Начало:" ++ "08:00") :
          String).data j) ∧
    (∀ mk ∈ fieldMarkers, ∀ j < (" ул. Шипка 12 " : String).length,
      ¬ MatchAt mk.data ((" ул. Шипка 12 " ++ "Начало:" ++ "08:00") : String).data j) ∧
    stripWs (" ул. Шипка 12 " : String).data ≠ [] ∧
    extract_field ("Ремонт. " ++ "Местоположение:" ++ " ул. Шипка 12 " ++ "Начало:" ++ "08:00")
      "Местоположение:" = some (String.mk (stripWs (" ул. Шипка 12 " : String).data)) :=
  ⟨by decide, by decide, by decide, by decide, by decide,
   extract_field_nearest_fixed_marker "Ремонт. " "Местоположение:" " ул. Шипка 12 "
     "Начало:" "08:00" (by decide) (by decide) (by decide) (by decide) (by decide)⟩

/-- C1 as stated is false: when the label being extracted is `Тип:` and
the next field label in the text is `Местоположение:`, the slice does
NOT end there (the fixed marker list omits `Местоположение:`), so the
extracted value is not `value.strip()` of the decomposition in the claim. -/
theorem extract_field_counterexample :
    extract_field "Тип: авария Местоположение: ул. Пиротска" "Тип:" =
      some "авария Местоположение: ул. Пиротска" ∧
    extract_field "Тип: авария Местоположение: ул. Пиротска" "Тип:" ≠ some "авария" := by
  constructor
  · decide
  · decide

/-- Bounds-free variant of `sectionIf_spec`: structural decomposition of
a formatter section output without the 1900-budget clause. -/
theorem sectionIf_decomp (pre init : String) (mk : List String → String)
    (test loop msgs : List String)
    (hinit : init ≠ "") (hmkne : ∀ ms, mk ms ≠ "") :
    ∃ (bs : List String) (gs : List (List String)),
      bs.length = gs.length ∧ bs ≠ [] ∧
      gs.flatten = (if 1900 < (pre ++ strJoin test).length then loop else test) ∧
      (if 1900 < (pre ++ strJoin test).length then chunkLoop mk msgs init loop
       else msgs ++ [pre ++ strJoin test]) =
        msgs ++ List.zipWith (fun b g => b ++ strJoin g) bs gs ∧
      bs.head? = some (if 1900 < (pre ++ strJoin test).length then init else pre) ∧
      (∀ b ∈ bs.tail, ∃ ms, b = mk ms) := by
  by_cases hov : 1900 < (pre ++ strJoin test).length
  · simp only [if_pos hov]
    obtain ⟨bs, gs, hlen, hflat, hout, hhead, htail⟩ :=
      chunkLoop_decomp mk loop msgs init hinit hmkne
    refine ⟨bs, gs, hlen, ?_, hflat, hout, hhead, htail⟩
    intro hnil
    rw [hnil] at hhead
    simp at hhead
  · simp only [if_neg hov]
    refine ⟨[pre], [test], rfl, by simp, by simp, ?_, rfl, by simp⟩
    simp [List.zipWith]

theorem waterCurrentSection_decomp (msgs : List String) (cur : List WaterStop)
    (hcur : cur ≠ []) :
    ∃ (bs : List String) (gs : List (List String)),
      bs.length = gs.length ∧ bs ≠ [] ∧
      gs.flatten = numberEntries waterCurrentEntry 1 cur ∧
      waterCurrentSection msgs cur = msgs ++ List.zipWith (fun b g => b ++ strJoin g) bs gs ∧
      (∃ first, bs.head? = some first ∧
        (first = waterHeader ++ waterCurrentPartBanner 1 ∨
         first = waterHeader ++ waterCurrentBanner cur.length)) ∧
      (∀ b ∈ bs.tail, ∃ ms, b = waterCurrentMk ms) := by
  have hsec : waterCurrentSection msgs cur =
      (if 1900 < ((waterHeader ++ waterCurrentBanner cur.length) ++
          strJoin (numberEntries waterCurrentEntry 1 cur)).length
       then chunkLoop waterCurrentMk msgs (waterHeader ++ waterCurrentPartBanner 1)
         (numberEntries waterCurrentEntry 1 cur)
       else msgs ++ [(waterHeader ++ waterCurrentBanner cur.length) ++
         strJoin (numberEntries waterCurrentEntry 1 cur)]) := by
    unfold waterCurrentSection
    rw [if_neg hcur]
  obtain ⟨bs, gs, h1, h2, h3, h4, h6, h7⟩ :=
    sectionIf_decomp (waterHeader ++ waterCurrentBanner cur.length)
      (waterHeader ++ waterCurrentPartBanner 1) waterCurrentMk
      (numberEntries waterCurrentEntry 1 cur) (numberEntries waterCurrentEntry 1 cur) msgs
      (strAppend_ne_left _ (by decide)) waterCurrentMk_ne
  refine ⟨bs, gs, h1, h2, ?_, ?_, ?_, h7⟩
  · rw [ite_self] at h3
    exact h3
  · rw [hsec]
    exact h4
  · refine ⟨_, h6, ?_⟩
    split
    · exact Or.inl rfl
    · exact Or.inr rfl

theorem waterPlannedSection_decomp (msgs : List String) (plan : List WaterStop)
    (hplan : plan ≠ []) :
    ∃ (bs : List String) (gs : List (List String)),
      bs.length = gs.length ∧ bs ≠ [] ∧
      gs.flatten = numberEntries waterPlannedEntry 1 plan ∧
      waterPlannedSection msgs plan = msgs ++ List.zipWith (fun b g => b ++ strJoin g) bs gs ∧
      (∃ first, bs.head? = some first ∧
        (first = waterPlannedPartBanner 1 ∨
         first = waterPlannedBanner plan.length)) ∧
      (∀ b ∈ bs.tail, ∃ ms, b = waterPlannedMk ms) := by
  have hsec : waterPlannedSection msgs plan =
      (if 1900 < (waterPlannedBanner plan.length ++
          strJoin (numberEntries waterPlannedEntry 1 plan)).length
       then chunkLoop waterPlannedMk msgs (waterPlannedPartBanner 1)
         (numberEntries waterPlannedEntry 1 plan)
       else msgs ++ [waterPlannedBanner plan.length ++
         strJoin (numberEntries waterPlannedEntry 1 plan)]) := by
    unfold waterPlannedSection
    rw [if_neg hplan]
  obtain ⟨bs, gs, h1, h2, h3, h4, h6, h7⟩ :=
    sectionIf_decomp (waterPlannedBanner plan.length)
      (waterPlannedPartBanner 1) waterPlannedMk
      (numberEntries waterPlannedEntry 1 plan) (numberEntries waterPlannedEntry 1 plan) msgs
      (waterPlannedMk_ne []) waterPlannedMk_ne
  refine ⟨bs, gs, h1, h2, ?_, ?_, ?_, h7⟩
  · rw [ite_self] at h3
    exact h3
  · rw [hsec]
    exact h4
  · refine ⟨_, h6, ?_⟩
    split
    · exact Or.inl rfl
    · exact Or.inr rfl

theorem elecCurrentSection_decomp (msgs : List String) (u : List ElecStop)
    (hu : u ≠ []) :
    ∃ (bs : List String) (gs : List (List String)),
      bs.length = gs.length ∧ bs ≠ [] ∧
      gs.flatten = elecCurrentChunkEntries u ∧
      elecCurrentSection msgs u = msgs ++ List.zipWith (fun b g => b ++ strJoin g) bs gs ∧
      (∃ first, bs.head? = some first ∧
        (first = elecHeader ++ elecCurrentPartBanner 1 ∨
         first = elecHeader ++ elecCurrentBanner u.length)) ∧
      (∀ b ∈ bs.tail, ∃ ms, b = elecCurrentMk ms) := by
  have hsec : elecCurrentSection msgs u =
      (if 1900 < ((elecHeader ++ elecCurrentBanner u.length) ++
          strJoin (numberEntries elecLongEntry 1 u)).length
       then chunkLoop elecCurrentMk msgs (elecHeader ++ elecCurrentPartBanner 1)
         (numberEntries elecShortEntry 1 u)
       else msgs ++ [(elecHeader ++ elecCurrentBanner u.length) ++
         strJoin (numberEntries elecLongEntry 1 u)]) := by
    unfold elecCurrentSection
    rw [if_neg hu]
  obtain ⟨bs, gs, h1, h2, h3, h4, h6, h7⟩ :=
    sectionIf_decomp (elecHeader ++ elecCurrentBanner u.length)
      (elecHeader ++ elecCurrentPartBanner 1) elecCurrentMk
      (numberEntries elecLongEntry 1 u) (numberEntries elecShortEntry 1 u) msgs
      (strAppend_ne_left _ (by decide)) elecCurrentMk_ne
  refine ⟨bs, gs, h1, h2, ?_, ?_, ?_, h7⟩
  · rw [elecCurrentChunkEntries]
    exact h3
  · rw [hsec]
    exact h4
  · refine ⟨_, h6, ?_⟩
    split
    · exact Or.inl rfl
    · exact Or.inr rfl

theorem elecPlannedSection_decomp (msgs : List String) (p : List ElecStop)
    (hp : p ≠ []) :
    ∃ (bs : List String) (gs : List (List String)),
      bs.length = gs.length ∧ bs ≠ [] ∧
      gs.flatten = elecPlannedChunkEntries p ∧
      elecPlannedSection msgs p = msgs ++ List.zipWith (fun b g => b ++ strJoin g) bs gs ∧
      (∃ first, bs.head? = some first ∧
        (first = elecPlannedPartBanner 1 ∨
         first = elecPlannedBanner p.length)) ∧
      (∀ b ∈ bs.tail, ∃ ms, b = elecPlannedMk ms) := by
  have hsec : elecPlannedSection msgs p =
      (if 1900 < (elecPlannedBanner p.length ++
          strJoin (numberEntries elecLongEntry 1 p)).length
       then chunkLoop elecPlannedMk msgs (elecPlannedPartBanner 1)
         (numberEntries elecShortEntry 1 p)
       else msgs ++ [elecPlannedBanner p.length ++
         strJoin (numberEntries elecLongEntry 1 p)]) := by
    unfold elecPlannedSection
    rw [if_neg hp]
  obtain ⟨bs, gs, h1, h2, h3, h4, h6, h7⟩ :=
    sectionIf_decomp (elecPlannedBanner p.length)
      (elecPlannedPartBanner 1) elecPlannedMk
      (numberEntries elecLongEntry 1 p) (numberEntries elecShortEntry 1 p) msgs
      (elecPlannedMk_ne []) elecPlannedMk_ne
  refine ⟨bs, gs, h1, h2, ?_, ?_, ?_, h7⟩
  · rw [elecPlannedChunkEntries]
    exact h3
  · rw [hsec]
    exact h4
  · refine ⟨_, h6, ?_⟩
    split
    · exact Or.inl rfl
    · exact Or.inr rfl

theorem zipWith_chunks_ne_nil {bs : List String} {gs : List (List String)}
    (hne : bs ≠ []) (hlen : bs.length = gs.length) :
    List.zipWith (fun b g => b ++ strJoin g) bs gs ≠ [] := by
  intro h
  apply hne
  have := congrArg List.length h
  rw [List.length_zipWith, ← hlen, Nat.min_self] at this
  exact List.length_eq_zero.mp this

/-- C9: with at least one current (water) / unplanned (electricity)
record and at least one planned record present, the pre-footer chunk
list splits as current-section chunks followed by planned-section
chunks — every current/unplanned entry line renders before every
planned entry line — with 1-based numbering restarting at 1 in each
category group (the entry lists are `numberEntries … 1 …`), and the
output depends only on the two category-filtered sublists, i.e. it is
unchanged under any reordering of the input that preserves each
group. -/
theorem current_entries_render_before_planned
    (wstops : List WaterStop) (estops : List ElecStop)
    (hwc : wstops.filter (fun s => decide (s.category = WCategory.current)) ≠ [])
    (hwp : wstops.filter (fun s => decide (s.category = WCategory.planned)) ≠ [])
    (hec : estops.filter (fun s => decide (s.category = ECategory.unplanned)) ≠ [])
    (hep : estops.filter (fun s => decide (s.category = ECategory.planned)) ≠ []) :
    (∃ C P : List String,
      waterMessages wstops = C ++ P ∧ C ≠ [] ∧ P ≠ [] ∧
      (∃ (bs : List String) (gs : List (List String)), bs.length = gs.length ∧
        gs.flatten = numberEntries waterCurrentEntry 1
          (wstops.filter (fun s => decide (s.category = WCategory.current))) ∧
        C = List.zipWith (fun b g => b ++ strJoin g) bs gs) ∧
      (∃ (bs : List String) (gs : List (List String)), bs.length = gs.length ∧
        gs.flatten = numberEntries waterPlannedEntry 1
          (wstops.filter (fun s => decide (s.category = WCategory.planned))) ∧
        P = List.zipWith (fun b g => b ++ strJoin g) bs gs)) ∧
    (∃ C P : List String,
      elecMessages estops = C ++ P ∧ C ≠ [] ∧ P ≠ [] ∧
      (∃ (bs : List String) (gs : List (List String)), bs.length = gs.length ∧
        gs.flatten = elecCurrentChunkEntries
          (estops.filter (fun s => decide (s.category = ECategory.unplanned))) ∧
        C = List.zipWith (fun b g => b ++ strJoin g) bs gs) ∧
      (∃ (bs : List String) (gs : List (List String)), bs.length = gs.length ∧
        gs.flatten = elecPlannedChunkEntries
          (estops.filter (fun s => decide (s.category = ECategory.planned))) ∧
        P = List.zipWith (fun b g => b ++ strJoin g) bs gs)) ∧
    (∀ w2 : List WaterStop,
      w2.filter (fun s => decide (s.category = WCategory.current)) =
        wstops.filter (fun s => decide (s.category = WCategory.current)) →
      w2.filter (fun s => decide (s.category = WCategory.planned)) =
        wstops.filter (fun s => decide (s.category = WCategory.planned)) →
      waterMessages w2 = waterMessages wstops) ∧
    (∀ e2 : List ElecStop,
      e2.filter (fun s => decide (s.category = ECategory.unplanned)) =
        estops.filter (fun s => decide (s.category = ECategory.unplanned)) →
      e2.filter (fun s => decide (s.category = ECategory.planned)) =
        estops.filter (fun s => decide (s.category = ECategory.planned)) →
      elecMessages e2 = elecMessages estops) := by
  refine ⟨?_, ?_, ?_, ?_⟩
  · obtain ⟨bsC, gsC, hlenC, hbsC, hflatC, houtC, hheadC, htailC⟩ :=
      waterCurrentSection_decomp [] _ hwc
    obtain ⟨bsP, gsP, hlenP, hbsP, hflatP, houtP, hheadP, htailP⟩ :=
      waterPlannedSection_decomp (waterCurrentSection []
        (wstops.filter (fun s => decide (s.category = WCategory.current)))) _ hwp
    refine ⟨List.zipWith (fun b g => b ++ strJoin g) bsC gsC,
           List.zipWith (fun b g => b ++ strJoin g) bsP gsP, ?_, ?_, ?_, ?_, ?_⟩
    · rw [waterMessages, houtP, houtC]
      simp
    · exact zipWith_chunks_ne_nil hbsC hlenC
    · exact zipWith_chunks_ne_nil hbsP hlenP
    · exact ⟨bsC, gsC, hlenC, hflatC, rfl⟩
    · exact ⟨bsP, gsP, hlenP, hflatP, rfl⟩
  · obtain ⟨bsC, gsC, hlenC, hbsC, hflatC, houtC, hheadC, htailC⟩ :=
      elecCurrentSection_decomp [] _ hec
    obtain ⟨bsP, gsP, hlenP, hbsP, hflatP, houtP, hheadP, htailP⟩ :=
      elecPlannedSection_decomp (elecCurrentSection []
        (estops.filter (fun s => decide (s.category = ECategory.unplanned)))) _ hep
    refine ⟨List.zipWith (fun b g => b ++ strJoin g) bsC gsC,
           List.zipWith (fun b g => b ++ strJoin g) bsP gsP, ?_, ?_, ?_, ?_, ?_⟩
    · rw [elecMessages, houtP, houtC]
      simp
    · exact zipWith_chunks_ne_nil hbsC hlenC
    · exact zipWith_chunks_ne_nil hbsP hlenP
    · exact ⟨bsC, gsC, hlenC, hflatC, rfl⟩
    · exact ⟨bsP, gsP, hlenP, hflatP, rfl⟩
  · intro w2 h1 h2
    rw [waterMessages, waterMessages, h1, h2]
  · intro e2 h1 h2
    rw [elecMessages, elecMessages, h1, h2]

/-- Witness for C9: a water list given planned-first and an electricity
list given planned-first still render the current/unplanned chunks
first. -/
theorem current_entries_render_before_planned_witness :
    ([sampleWaterStop2, sampleWaterStop].filter
        (fun s => decide (s.category = WCategory.current)) ≠ []) ∧
    ([sampleWaterStop2, sampleWaterStop].filter
        (fun s => decide (s.category = WCategory.planned)) ≠ []) ∧
    ([sampleElecStop, sampleElecStop2].filter
        (fun s => decide (s.category = ECategory.unplanned)) ≠ []) ∧
    ([sampleElecStop, sampleElecStop2].filter
        (fun s => decide (s.category = ECategory.planned)) ≠ []) ∧
    (∃ C P : List String,
      waterMessages [sampleWaterStop2, sampleWaterStop] = C ++ P ∧ C ≠ [] ∧ P ≠ []) ∧
    (∃ C P : List String,
      elecMessages [sampleElecStop, sampleElecStop2] = C ++ P ∧ C ≠ [] ∧ P ≠ []) := by
  have h := current_entries_render_before_planned [sampleWaterStop2, sampleWaterStop]
    [sampleElecStop, sampleElecStop2] (by decide) (by decide) (by decide) (by decide)
  refine ⟨by decide, by decide, by decide, by decide, ?_, ?_⟩
  · obtain ⟨C, P, h1, h2, h3, _⟩ := h.1
    exact ⟨C, P, h1, h2, h3⟩
  · obtain ⟨C, P, h1, h2, h3, _⟩ := h.2.1
    exact ⟨C, P, h1, h2, h3⟩

/-- C10: when the electricity current-outages section overflows 1900
characters (measured on the long, context-carrying entries), the
emitted chunks are built from the SHORT re-renderings — location and
times only — so the municipality and region context of the
single-message path is dropped; and for any record with a non-empty
region the two renderings genuinely differ. -/
theorem elec_split_path_drops_context (msgs : List String) (u : List ElecStop)
    (hov : 1900 < (elecHeader ++ elecCurrentBanner u.length ++
      strJoin (numberEntries elecLongEntry 1 u)).length)
    (hu : u ≠ []) :
    elecCurrentSection msgs u =
      chunkLoop elecCurrentMk msgs (elecHeader ++ elecCurrentPartBanner 1)
        (numberEntries elecShortEntry 1 u) ∧
    elecCurrentChunkEntries u = numberEntries elecShortEntry 1 u ∧
    (∀ (i : Nat) (s : ElecStop), s.region ≠ "" → elecLongEntry i s ≠ elecShortEntry i s) := by
  refine ⟨?_, ?_, ?_⟩
  · unfold elecCurrentSection
    rw [if_neg hu, if_pos hov]
  · unfold elecCurrentChunkEntries
    rw [if_pos hov]
  · intro i s hreg hEq
    have hlen := congrArg String.length hEq
    simp only [elecLongEntry, elecShortEntry, String.length_append] at hlen
    have hgt : (pySlice 80 s.location).length < (elecLocStr s).length := by
      simp only [elecLocStr]
      rw [if_pos hreg]
      have hp1 : (" (" : String).length = 2 := rfl
      have hp2 : (")" : String).length = 1 := rfl
      have hp3 : (", " : String).length = 2 := rfl
      split
      · simp only [String.length_append, hp1, hp2, hp3]
        omega
      · simp only [String.length_append, hp1, hp2]
        omega
    omega

theorem longStart_length : longStart.length = 2000 := by
  show (List.replicate 2000 'x').length = 2000
  simp

theorem sampleElecStopLong_overflows :
    1900 < (elecHeader ++ elecCurrentBanner [sampleElecStopLong].length ++
      strJoin (numberEntries elecLongEntry 1 [sampleElecStopLong])).length := by
  show 1900 < (elecHeader ++ elecCurrentBanner 1 ++
    strJoin [elecLongEntry 1 sampleElecStopLong]).length
  have hst : sampleElecStopLong.start = longStart := rfl
  simp only [strJoin, elecLongEntry, hst, String.length_append, longStart_length]
  omega

/-- Witness for C10 at a one-record section whose long rendering
overflows the 1900 budget. -/
theorem elec_split_path_drops_context_witness :
    1900 < (elecHeader ++ elecCurrentBanner [sampleElecStopLong].length ++
      strJoin (numberEntries elecLongEntry 1 [sampleElecStopLong])).length ∧
    [sampleElecStopLong] ≠ ([] : List ElecStop) ∧
    (elecCurrentSection [] [sampleElecStopLong] =
      chunkLoop elecCurrentMk [] (elecHeader ++ elecCurrentPartBanner 1)
        (numberEntries elecShortEntry 1 [sampleElecStopLong]) ∧
     elecCurrentChunkEntries [sampleElecStopLong] =
       numberEntries elecShortEntry 1 [sampleElecStopLong] ∧
     (∀ (i : Nat) (s : ElecStop), s.region ≠ "" →
       elecLongEntry i s ≠ elecShortEntry i s)) :=
  ⟨sampleElecStopLong_overflows, by simp,
   elec_split_path_drops_context [] [sampleElecStopLong]
     sampleElecStopLong_overflows (by simp)⟩

/-! Character-level cleanliness machinery (C8). -/

theorem digitChar_mem (m : Nat) :
    Nat.digitChar m ∈ ("0123456789abcdef*" : String).data := by
  by_cases h16 : m < 16
  · interval_cases m <;> decide
  · rw [Nat.digitChar]
    repeat rw [if_neg (by omega)]
    decide

theorem toDigitsCore_mem : ∀ (fuel n : Nat) (ds : List Char),
    (∀ c ∈ ds, c ∈ ("0123456789abcdef*" : String).data) →
    ∀ c ∈ Nat.toDigitsCore 10 fuel n ds, c ∈ ("0123456789abcdef*" : String).data := by
  intro fuel
  induction fuel with
  | zero => intro n ds h c hc; exact h c hc
  | succ f ih =>
    intro n ds h c hc
    rw [Nat.toDigitsCore] at hc
    by_cases hz : n / 10 = 0
    · rw [if_pos hz] at hc
      rcases List.mem_cons.mp hc with hc | hc
      · exact hc ▸ digitChar_mem _
      · exact h c hc
    · rw [if_neg hz] at hc
      refine ih _ _ ?_ c hc
      intro d hd
      rcases List.mem_cons.mp hd with hd | hd
      · exact hd ▸ digitChar_mem _
      · exact h d hd

theorem repr_mem (n : Nat) :
    ∀ c ∈ (Nat.repr n).data, c ∈ ("0123456789abcdef*" : String).data := by
  have h : (Nat.repr n).data = Nat.toDigits 10 n := rfl
  rw [h, Nat.toDigits]
  exact toDigitsCore_mem _ _ _ (by intro c hc; cases hc)

theorem repr_char_not_mem {ch : Char}
    (h : ch ∉ ("0123456789abcdef*" : String).data) (n : Nat) :
    ch ∉ (Nat.repr n).data :=
  fun hm => h (repr_mem n ch hm)

theorem char_not_mem_append {ch : Char} {a b : String}
    (ha : ch ∉ a.data) (hb : ch ∉ b.data) : ch ∉ (a ++ b).data := by
  rw [String.data_append]
  intro h
  rcases List.mem_append.mp h with h | h
  · exact ha h
  · exact hb h

theorem char_not_mem_strJoin {ch : Char} {g : List String}
    (h : ∀ e ∈ g, ch ∉ e.data) : ch ∉ (strJoin g).data := by
  induction g with
  | nil => intro hm; cases hm
  | cons e g ih =>
    rw [strJoin_cons]
    exact char_not_mem_append (h e (by simp)) (ih (fun e' he' => h e' (by simp [he'])))

theorem char_not_mem_pySlice {ch : Char} {s : String} (n : Nat)
    (h : ch ∉ s.data) : ch ∉ (pySlice n s).data := by
  intro hm
  exact h ((List.take_sublist n s.data).subset hm)

/-- A located occurrence of a substring only involves characters of the
haystack. -/
theorem MatchAt_char_mem {nd hay : List Char} {k : Nat}
    (h : MatchAt nd hay k) {ch : Char} (hc : ch ∈ nd) : ch ∈ hay := by
  rw [MatchAt] at h
  have h1 : ch ∈ (hay.drop k).take nd.length := by rw [h]; exact hc
  exact (List.drop_sublist k hay).subset ((List.take_sublist _ _).subset h1)

theorem strContains_eq_false {hay nd : String} {ch : Char}
    (hnd : ch ∈ nd.data) (hhay : ch ∉ hay.data) : strContains hay nd = false := by
  rw [strContains]
  rcases hf : findSub hay.data nd.data with _ | k
  · rfl
  · exfalso
    exact hhay (MatchAt_char_mem (findSub_sound nd.data hay.data k hf).1 hnd)

theorem zipWith_mem {α β γ : Type} (f : α → β → γ) :
    ∀ (as : List α) (bs : List β), ∀ x ∈ List.zipWith f as bs,
      ∃ a ∈ as, ∃ b ∈ bs, x = f a b := by
  intro as
  induction as with
  | nil => intro bs x hx; cases hx
  | cons a as ih =>
    intro bs x hx
    cases bs with
    | nil => cases hx
    | cons b bs =>
      rcases List.mem_cons.mp hx with hx | hx
      · exact ⟨a, by simp, b, by simp, hx⟩
      · obtain ⟨a', ha', b', hb', hxe⟩ := ih bs x hx
        exact ⟨a', by simp [ha'], b', by simp [hb'], hxe⟩

theorem numberEntries_mem (render : Nat → α → String) :
    ∀ (i : Nat) (l : List α), ∀ e ∈ numberEntries render i l,
      ∃ (j : Nat) (s : α), s ∈ l ∧ e = render j s := by
  intro i l
  induction l generalizing i with
  | nil => intro e he; cases he
  | cons s rest ih =>
    intro e he
    rcases List.mem_cons.mp he with he | he
    · exact ⟨i, s, by simp, he⟩
    · obtain ⟨j, s', hs', hee⟩ := ih (i + 1) e he
      exact ⟨j, s', by simp [hs'], hee⟩

/-! Water banners and entries contain no water-drop emoji; electricity
banners and entries contain no capital Z (which occurs in `ERM Zapad`
inside the electricity header). -/

theorem no_drop_waterCurrentBanner (n : Nat) : '💧' ∉ (waterCurrentBanner n).data :=
  char_not_mem_append
    (char_not_mem_append (by decide) (repr_char_not_mem (by decide) n)) (by decide)

theorem no_drop_waterCurrentPartBanner (k : Nat) : '💧' ∉ (waterCurrentPartBanner k).data :=
  char_not_mem_append
    (char_not_mem_append (by decide) (repr_char_not_mem (by decide) k)) (by decide)

theorem no_drop_waterPlannedBanner (n : Nat) : '💧' ∉ (waterPlannedBanner n).data :=
  char_not_mem_append
    (char_not_mem_append (by decide) (repr_char_not_mem (by decide) n)) (by decide)

theorem no_drop_waterPlannedPartBanner (k : Nat) : '💧' ∉ (waterPlannedPartBanner k).data :=
  char_not_mem_append
    (char_not_mem_append (by decide) (repr_char_not_mem (by decide) k)) (by decide)

theorem no_drop_waterCurrentEntry (i : Nat) (stop : WaterStop)
    (hl : '💧' ∉ stop.location.data) (hs : '💧' ∉ stop.start.data)
    (he : '💧' ∉ stop.«end».data) : '💧' ∉ (waterCurrentEntry i stop).data := by
  unfold waterCurrentEntry
  exact char_not_mem_append (char_not_mem_append (char_not_mem_append (char_not_mem_append
    (char_not_mem_append (char_not_mem_append (char_not_mem_append
      (char_not_mem_append (by decide) (repr_char_not_mem (by decide) i)) (by decide))
      (char_not_mem_pySlice 100 hl)) (by decide)) hs) (by decide)) he) (by decide)

theorem no_drop_waterPlannedEntry (i : Nat) (stop : WaterStop)
    (hl : '💧' ∉ stop.location.data) (hs : '💧' ∉ stop.start.data)
    (he : '💧' ∉ stop.«end».data) : '💧' ∉ (waterPlannedEntry i stop).data := by
  unfold waterPlannedEntry
  exact char_not_mem_append (char_not_mem_append (char_not_mem_append (char_not_mem_append
    (char_not_mem_append (char_not_mem_append (char_not_mem_append
      (char_not_mem_append (by decide) (repr_char_not_mem (by decide) i)) (by decide))
      (char_not_mem_pySlice 100 hl)) (by decide)) hs) (by decide)) he) (by decide)

theorem no_Z_elecCurrentBanner (n : Nat) : 'Z' ∉ (elecCurrentBanner n).data :=
  char_not_mem_append
    (char_not_mem_append (by decide) (repr_char_not_mem (by decide) n)) (by decide)

theorem no_Z_elecCurrentPartBanner (k : Nat) : 'Z' ∉ (elecCurrentPartBanner k).data :=
  char_not_mem_append
    (char_not_mem_append (by decide) (repr_char_not_mem (by decide) k)) (by decide)

theorem no_Z_elecPlannedBanner (n : Nat) : 'Z' ∉ (elecPlannedBanner n).data :=
  char_not_mem_append
    (char_not_mem_append (by decide) (repr_char_not_mem (by decide) n)) (by decide)

theorem no_Z_elecPlannedPartBanner (k : Nat) : 'Z' ∉ (elecPlannedPartBanner k).data :=
  char_not_mem_append
    (char_not_mem_append (by decide) (repr_char_not_mem (by decide) k)) (by decide)

theorem no_Z_elecLocStr (stop : ElecStop)
    (hl : 'Z' ∉ stop.location.data) (hm : 'Z' ∉ stop.municipality.data)
    (hr : 'Z' ∉ stop.region.data) : 'Z' ∉ (elecLocStr stop).data := by
  have hslice : 'Z' ∉ (pySlice 80 stop.location).data := char_not_mem_pySlice 80 hl
  simp only [elecLocStr]
  split
  · split
    · exact char_not_mem_append (char_not_mem_append (char_not_mem_append
        (char_not_mem_append (char_not_mem_append hslice (by decide)) hm)
        (by decide)) hr) (by decide)
    · exact char_not_mem_append (char_not_mem_append
        (char_not_mem_append hslice (by decide)) hr) (by decide)
  · split
    · exact char_not_mem_append (char_not_mem_append hslice (by decide)) hm
    · exact hslice

theorem no_Z_elecLongEntry (i : Nat) (stop : ElecStop)
    (hl : 'Z' ∉ stop.location.data) (hm : 'Z' ∉ stop.municipality.data)
    (hr : 'Z' ∉ stop.region.data) (hs : 'Z' ∉ stop.start.data)
    (he : 'Z' ∉ stop.«end».data) : 'Z' ∉ (elecLongEntry i stop).data := by
  unfold elecLongEntry
  exact char_not_mem_append (char_not_mem_append (char_not_mem_append (char_not_mem_append
    (char_not_mem_append (char_not_mem_append (char_not_mem_append
      (char_not_mem_append (by decide) (repr_char_not_mem (by decide) i)) (by decide))
      (no_Z_elecLocStr stop hl hm hr)) (by decide)) hs) (by decide)) he) (by decide)

theorem no_Z_elecShortEntry (i : Nat) (stop : ElecStop)
    (hl : 'Z' ∉ stop.location.data) (hs : 'Z' ∉ stop.start.data)
    (he : 'Z' ∉ stop.«end».data) : 'Z' ∉ (elecShortEntry i stop).data := by
  unfold elecShortEntry
  exact char_not_mem_append (char_not_mem_append (char_not_mem_append (char_not_mem_append
    (char_not_mem_append (char_not_mem_append (char_not_mem_append
      (char_not_mem_append (by decide) (repr_char_not_mem (by decide) i)) (by decide))
      (char_not_mem_pySlice 80 hl)) (by decide)) hs) (by decide)) he) (by decide)

theorem zip_chunks_clean {ch : Char} {bs : List String} {gs : List (List String)}
    (hbs : ∀ b ∈ bs, ch ∉ b.data) (hgs : ∀ e ∈ gs.flatten, ch ∉ e.data) :
    ∀ c ∈ List.zipWith (fun b g => b ++ strJoin g) bs gs, ch ∉ c.data := by
  intro c hc
  obtain ⟨b, hb, g, hg, hce⟩ := zipWith_mem _ bs gs c hc
  subst hce
  refine char_not_mem_append (hbs b hb) (char_not_mem_strJoin ?_)
  intro e he
  exact hgs e (List.mem_flatten.mpr ⟨g, hg, he⟩)

theorem appendToLast_cons (f c : String) (rest : List String) :
    appendToLast f (c :: rest) =
      if rest = [] then [c ++ f] else c :: appendToLast f rest := by
  cases rest with
  | nil => rfl
  | cons r rs => rfl

theorem appendToLast_mem (f : String) :
    ∀ (l : List String), ∀ x ∈ appendToLast f l, ∃ y ∈ l, x = y ∨ x = y ++ f := by
  intro l
  induction l with
  | nil => intro x hx; cases hx
  | cons c rest ih =>
    intro x hx
    rw [appendToLast_cons] at hx
    by_cases hrest : rest = []
    · rw [if_pos hrest] at hx
      simp only [List.mem_singleton] at hx
      exact ⟨c, by simp, Or.inr hx⟩
    · rw [if_neg hrest] at hx
      rcases List.mem_cons.mp hx with hx | hx
      · exact ⟨c, by simp, Or.inl hx⟩
      · obtain ⟨y, hy, hxy⟩ := ih x hx
        exact ⟨y, by simp [hy], hxy⟩

theorem MatchAt_zero (a x : String) : MatchAt a.data (a ++ x).data 0 := by
  rw [MatchAt, List.drop_zero, String.data_append, List.take_left]

theorem MatchAt_zero_append {nd : List Char} {c : String} (f : String)
    (h : MatchAt nd c.data 0) : MatchAt nd (c ++ f).data 0 := by
  rw [MatchAt, List.drop_zero] at h ⊢
  have hle : nd.length ≤ c.data.length := by
    have := congrArg List.length h
    rw [List.length_take] at this
    omega
  rw [String.data_append, List.take_append_of_le_length hle, h]

/-- Unfolding of the water formatter wrapper for non-empty input: the
chunk list is the pre-footer message list with the chosen footer
appended to its last element. -/
theorem format_water_chunks (stops : List WaterStop) (fi : Nat) (hne : stops ≠ []) :
    chunksOf (format_water_stops_message stops fi) =
      appendToLast (waterFooters.getD (fi % waterFooters.length) "") (waterMessages stops) := by
  rw [format_water_stops_message, if_neg hne]
  have hmsgs := waterMessages_ne_nil hne
  simp only [if_neg hmsgs]
  have hL := appendToLast_ne_nil
    (s := waterFooters.getD (fi % waterFooters.length) "") hmsgs
  rcases hx : appendToLast (waterFooters.getD (fi % waterFooters.length) "")
      (waterMessages stops) with _ | ⟨m, ms⟩
  · exact absurd hx hL
  · cases ms with
    | nil => rfl
    | cons m2 ms2 => rfl

theorem format_elec_chunks (stops : List ElecStop) (fj : Nat) (hne : stops ≠ []) :
    chunksOf (format_electricity_stops_message stops fj) =
      appendToLast (elecFooters.getD (fj % elecFooters.length) "") (elecMessages stops) := by
  rw [format_electricity_stops_message, if_neg hne]
  have hmsgs := elecMessages_ne_nil hne
  simp only [if_neg hmsgs]
  have hL := appendToLast_ne_nil
    (s := elecFooters.getD (fj % elecFooters.length) "") hmsgs
  rcases hx : appendToLast (elecFooters.getD (fj % elecFooters.length) "")
      (elecMessages stops) with _ | ⟨m, ms⟩
  · exact absurd hx hL
  · cases ms with
    | nil => rfl
    | cons m2 ms2 => rfl

theorem no_drop_waterFooter (fi : Nat) :
    '💧' ∉ (waterFooters.getD (fi % waterFooters.length) "").data := by
  have h4 : fi % waterFooters.length = 0 ∨ fi % waterFooters.length = 1 ∨
      fi % waterFooters.length = 2 ∨ fi % waterFooters.length = 3 := by
    have : fi % waterFooters.length < 4 := Nat.mod_lt fi (by decide)
    omega
  rcases h4 with h | h | h | h <;> rw [h] <;> decide

theorem no_Z_elecFooter (fj : Nat) :
    'Z' ∉ (elecFooters.getD (fj % elecFooters.length) "").data := by
  have h4 : fj % elecFooters.length = 0 ∨ fj % elecFooters.length = 1 ∨
      fj % elecFooters.length = 2 ∨ fj % elecFooters.length = 3 := by
    have : fj % elecFooters.length < 4 := Nat.mod_lt fj (by decide)
    omega
  rcases h4 with h | h | h | h <;> rw [h] <;> decide

theorem water_current_entries_clean {l : List WaterStop}
    (h : ∀ s ∈ l, '💧' ∉ s.location.data ∧ '💧' ∉ s.start.data ∧ '💧' ∉ s.«end».data) :
    ∀ e ∈ numberEntries waterCurrentEntry 1 l, '💧' ∉ e.data := by
  intro e he
  obtain ⟨j, s, hs, hee⟩ := numberEntries_mem waterCurrentEntry 1 l e he
  subst hee
  obtain ⟨h1, h2, h3⟩ := h s hs
  exact no_drop_waterCurrentEntry j s h1 h2 h3

theorem water_planned_entries_clean {l : List WaterStop}
    (h : ∀ s ∈ l, '💧' ∉ s.location.data ∧ '💧' ∉ s.start.data ∧ '💧' ∉ s.«end».data) :
    ∀ e ∈ numberEntries waterPlannedEntry 1 l, '💧' ∉ e.data := by
  intro e he
  obtain ⟨j, s, hs, hee⟩ := numberEntries_mem waterPlannedEntry 1 l e he
  subst hee
  obtain ⟨h1, h2, h3⟩ := h s hs
  exact no_drop_waterPlannedEntry j s h1 h2 h3

/-- The planned-stops block only appends chunks that are free of the
water-drop emoji of the header. -/
theorem waterPlannedSection_ext_clean (msgs : List String) (plan : List WaterStop)
    (hent : ∀ s ∈ plan, '💧' ∉ s.location.data ∧ '💧' ∉ s.start.data ∧ '💧' ∉ s.«end».data) :
    ∃ rest, waterPlannedSection msgs plan = msgs ++ rest ∧ ∀ c ∈ rest, '💧' ∉ c.data := by
  by_cases hplan : plan = []
  · exact ⟨[], by simp [waterPlannedSection, hplan], by simp⟩
  · obtain ⟨bs, gs, hlen, hbs, hflat, hout, ⟨first, hhead, hfopt⟩, htail⟩ :=
      waterPlannedSection_decomp msgs plan hplan
    refine ⟨_, hout, ?_⟩
    apply zip_chunks_clean
    · intro b hb
      cases bs with
      | nil => exact absurd rfl hbs
      | cons b0 bstail =>
        simp only [List.head?_cons, Option.some.injEq] at hhead
        rcases List.mem_cons.mp hb with hb | hb
        · subst hb
          rw [hhead]
          rcases hfopt with hf | hf <;> rw [hf]
          · exact no_drop_waterPlannedPartBanner 1
          · exact no_drop_waterPlannedBanner plan.length
        · obtain ⟨ms, hms⟩ := htail b (by simpa using hb)
          rw [hms, waterPlannedMk]
          exact no_drop_waterPlannedPartBanner _
    · rw [hflat]
      exact water_planned_entries_clean hent

/-- The current-stops block on the empty message list: its first chunk
begins with the water header, and every later chunk is free of the
water-drop emoji. -/
theorem waterCurrentSection_structure (cur : List WaterStop) (hcur : cur ≠ [])
    (hent : ∀ s ∈ cur, '💧' ∉ s.location.data ∧ '💧' ∉ s.start.data ∧ '💧' ∉ s.«end».data) :
    ∃ c cs, waterCurrentSection [] cur = c :: cs ∧
      MatchAt waterHeader.data c.data 0 ∧ ∀ c' ∈ cs, '💧' ∉ c'.data := by
  obtain ⟨bs, gs, hlen, hbs, hflat, hout, ⟨first, hhead, hfopt⟩, htail⟩ :=
    waterCurrentSection_decomp [] cur hcur
  cases bs with
  | nil => exact absurd rfl hbs
  | cons b0 bstail =>
    cases gs with
    | nil => simp at hlen
    | cons g0 gstail =>
      simp only [List.head?_cons, Option.some.injEq] at hhead
      subst hhead
      refine ⟨b0 ++ strJoin g0, List.zipWith (fun b g => b ++ strJoin g) bstail gstail,
        ?_, ?_, ?_⟩
      · rw [hout]
        simp [List.zipWith_cons_cons]
      · rcases hfopt with hf | hf <;> rw [hf, String.append_assoc] <;>
          exact MatchAt_zero _ _
      · apply zip_chunks_clean
        · intro b hb
          obtain ⟨ms, hms⟩ := htail b (by simpa using hb)
          rw [hms, waterCurrentMk]
          exact no_drop_waterCurrentPartBanner _
        · intro e he
          have : e ∈ (g0 :: gstail).flatten := by
            simp only [List.flatten_cons, List.mem_append]
            exact Or.inr he
          rw [hflat] at this
          exact water_current_entries_clean hent e this

theorem water_header_placement (stops : List WaterStop) (fi : Nat)
    (hclean : ∀ s ∈ stops, '💧' ∉ s.location.data ∧ '💧' ∉ s.start.data ∧ '💧' ∉ s.«end».data) :
    (stops.filter (fun s => decide (s.category = WCategory.current)) ≠ [] →
      ∃ c cs, chunksOf (format_water_stops_message stops fi) = c :: cs ∧
        MatchAt waterHeader.data c.data 0 ∧
        ∀ c' ∈ cs, strContains c' waterHeader = false) ∧
    (stops.filter (fun s => decide (s.category = WCategory.current)) = [] →
      ∀ c ∈ chunksOf (format_water_stops_message stops fi),
        strContains c waterHeader = false) := by
  have hdropmem : '💧' ∈ waterHeader.data := by decide
  have hcur_clean : ∀ s ∈ stops.filter (fun s => decide (s.category = WCategory.current)),
      '💧' ∉ s.location.data ∧ '💧' ∉ s.start.data ∧ '💧' ∉ s.«end».data :=
    fun s hs => hclean s (List.mem_filter.mp hs).1
  have hplan_clean : ∀ s ∈ stops.filter (fun s => decide (s.category = WCategory.planned)),
      '💧' ∉ s.location.data ∧ '💧' ∉ s.start.data ∧ '💧' ∉ s.«end».data :=
    fun s hs => hclean s (List.mem_filter.mp hs).1
  constructor
  · intro hcur
    have hne : stops ≠ [] := by
      intro h
      rw [h] at hcur
      simp at hcur
    rw [format_water_chunks stops fi hne]
    obtain ⟨c, cs, hC, hhd, hcs⟩ := waterCurrentSection_structure _ hcur hcur_clean
    obtain ⟨rest, hP, hrest⟩ := waterPlannedSection_ext_clean
      (waterCurrentSection [] (stops.filter (fun s => decide (s.category = WCategory.current))))
      (stops.filter (fun s => decide (s.category = WCategory.planned))) hplan_clean
    rw [waterMessages, hP, hC, List.cons_append, appendToLast_cons]
    by_cases hrest2 : cs ++ rest = []
    · rw [if_pos hrest2]
      exact ⟨c ++ waterFooters.getD (fi % waterFooters.length) "", [], rfl,
        MatchAt_zero_append _ hhd, by simp⟩
    · rw [if_neg hrest2]
      refine ⟨c, appendToLast (waterFooters.getD (fi % waterFooters.length) "") (cs ++ rest),
        rfl, hhd, ?_⟩
      intro c' hc'
      obtain ⟨y, hy, hxy⟩ := appendToLast_mem _ _ c' hc'
      have hyclean : '💧' ∉ y.data := by
        rcases List.mem_append.mp hy with hy | hy
        · exact hcs y hy
        · exact hrest y hy
      have hc'clean : '💧' ∉ c'.data := by
        rcases hxy with hxy | hxy
        · rw [hxy]
          exact hyclean
        · rw [hxy]
          exact char_not_mem_append hyclean (no_drop_waterFooter fi)
      exact strContains_eq_false hdropmem hc'clean
  · intro hcurE
    by_cases hne : stops = []
    · intro c hc
      rw [hne] at hc
      simp [format_water_stops_message, chunksOf] at hc
    · rw [format_water_chunks stops fi hne]
      obtain ⟨rest, hP, hrest⟩ := waterPlannedSection_ext_clean
        (waterCurrentSection [] (stops.filter (fun s => decide (s.category = WCategory.current))))
        (stops.filter (fun s => decide (s.category = WCategory.planned))) hplan_clean
      rw [waterMessages, hP, hcurE]
      have hCe : waterCurrentSection [] ([] : List WaterStop) = [] := rfl
      rw [hCe, List.nil_append]
      intro c hc
      obtain ⟨y, hy, hxy⟩ := appendToLast_mem _ _ c hc
      have hyclean : '💧' ∉ y.data := hrest y hy
      have hcclean : '💧' ∉ c.data := by
        rcases hxy with hxy | hxy
        · rw [hxy]
          exact hyclean
        · rw [hxy]
          exact char_not_mem_append hyclean (no_drop_waterFooter fi)
      exact strContains_eq_false hdropmem hcclean

theorem elec_short_entries_clean {l : List ElecStop}
    (h : ∀ s ∈ l, 'Z' ∉ s.location.data ∧ 'Z' ∉ s.municipality.data ∧
      'Z' ∉ s.region.data ∧ 'Z' ∉ s.start.data ∧ 'Z' ∉ s.«end».data) :
    ∀ e ∈ numberEntries elecShortEntry 1 l, 'Z' ∉ e.data := by
  intro e he
  obtain ⟨j, s, hs, hee⟩ := numberEntries_mem elecShortEntry 1 l e he
  subst hee
  obtain ⟨h1, h2, h3, h4, h5⟩ := h s hs
  exact no_Z_elecShortEntry j s h1 h4 h5

theorem elec_long_entries_clean {l : List ElecStop}
    (h : ∀ s ∈ l, 'Z' ∉ s.location.data ∧ 'Z' ∉ s.municipality.data ∧
      'Z' ∉ s.region.data ∧ 'Z' ∉ s.start.data ∧ 'Z' ∉ s.«end».data) :
    ∀ e ∈ numberEntries elecLongEntry 1 l, 'Z' ∉ e.data := by
  intro e he
  obtain ⟨j, s, hs, hee⟩ := numberEntries_mem elecLongEntry 1 l e he
  subst hee
  obtain ⟨h1, h2, h3, h4, h5⟩ := h s hs
  exact no_Z_elecLongEntry j s h1 h2 h3 h4 h5

theorem elec_current_chunk_entries_clean {l : List ElecStop}
    (h : ∀ s ∈ l, 'Z' ∉ s.location.data ∧ 'Z' ∉ s.municipality.data ∧
      'Z' ∉ s.region.data ∧ 'Z' ∉ s.start.data ∧ 'Z' ∉ s.«end».data) :
    ∀ e ∈ elecCurrentChunkEntries l, 'Z' ∉ e.data := by
  rw [elecCurrentChunkEntries]
  split
  · exact elec_short_entries_clean h
  · exact elec_long_entries_clean h

theorem elec_planned_chunk_entries_clean {l : List ElecStop}
    (h : ∀ s ∈ l, 'Z' ∉ s.location.data ∧ 'Z' ∉ s.municipality.data ∧
      'Z' ∉ s.region.data ∧ 'Z' ∉ s.start.data ∧ 'Z' ∉ s.«end».data) :
    ∀ e ∈ elecPlannedChunkEntries l, 'Z' ∉ e.data := by
  rw [elecPlannedChunkEntries]
  split
  · exact elec_short_entries_clean h
  · exact elec_long_entries_clean h

/-- The planned-maintenance block only appends chunks free of `Z`. -/
theorem elecPlannedSection_ext_clean (msgs : List String) (plan : List ElecStop)
    (hent : ∀ s ∈ plan, 'Z' ∉ s.location.data ∧ 'Z' ∉ s.municipality.data ∧
      'Z' ∉ s.region.data ∧ 'Z' ∉ s.start.data ∧ 'Z' ∉ s.«end».data) :
    ∃ rest, elecPlannedSection msgs plan = msgs ++ rest ∧ ∀ c ∈ rest, 'Z' ∉ c.data := by
  by_cases hplan : plan = []
  · exact ⟨[], by simp [elecPlannedSection, hplan], by simp⟩
  · obtain ⟨bs, gs, hlen, hbs, hflat, hout, ⟨first, hhead, hfopt⟩, htail⟩ :=
      elecPlannedSection_decomp msgs plan hplan
    refine ⟨_, hout, ?_⟩
    apply zip_chunks_clean
    · intro b hb
      cases bs with
      | nil => exact absurd rfl hbs
      | cons b0 bstail =>
        simp only [List.head?_cons, Option.some.injEq] at hhead
        rcases List.mem_cons.mp hb with hb | hb
        · rw [hb, hhead]
          rcases hfopt with hf | hf <;> rw [hf]
          · exact no_Z_elecPlannedPartBanner 1
          · exact no_Z_elecPlannedBanner plan.length
        · obtain ⟨ms, hms⟩ := htail b (by simpa using hb)
          rw [hms, elecPlannedMk]
          exact no_Z_elecPlannedPartBanner _
    · rw [hflat]
      exact elec_planned_chunk_entries_clean hent

/-- The current-outages block on the empty message list: its first
chunk begins with the electricity header, and every later chunk is free
of `Z`. -/
theorem elecCurrentSection_structure (u : List ElecStop) (hu : u ≠ [])
    (hent : ∀ s ∈ u, 'Z' ∉ s.location.data ∧ 'Z' ∉ s.municipality.data ∧
      'Z' ∉ s.region.data ∧ 'Z' ∉ s.start.data ∧ 'Z' ∉ s.«end».data) :
    ∃ c cs, elecCurrentSection [] u = c :: cs ∧
      MatchAt elecHeader.data c.data 0 ∧ ∀ c' ∈ cs, 'Z' ∉ c'.data := by
  obtain ⟨bs, gs, hlen, hbs, hflat, hout, ⟨first, hhead, hfopt⟩, htail⟩ :=
    elecCurrentSection_decomp [] u hu
  cases bs with
  | nil => exact absurd rfl hbs
  | cons b0 bstail =>
    cases gs with
    | nil => simp at hlen
    | cons g0 gstail =>
      simp only [List.head?_cons, Option.some.injEq] at hhead
      subst hhead
      refine ⟨b0 ++ strJoin g0, List.zipWith (fun b g => b ++ strJoin g) bstail gstail,
        ?_, ?_, ?_⟩
      · rw [hout]
        simp [List.zipWith_cons_cons]
      · rcases hfopt with hf | hf <;> rw [hf, String.append_assoc] <;>
          exact MatchAt_zero _ _
      · apply zip_chunks_clean
        · intro b hb
          obtain ⟨ms, hms⟩ := htail b (by simpa using hb)
          rw [hms, elecCurrentMk]
          exact no_Z_elecCurrentPartBanner _
        · intro e he
          have hmem : e ∈ (g0 :: gstail).flatten := by
            simp only [List.flatten_cons, List.mem_append]
            exact Or.inr he
          rw [hflat] at hmem
          exact elec_current_chunk_entries_clean hent e hmem

theorem elec_header_placement (stops : List ElecStop) (fj : Nat)
    (hclean : ∀ s ∈ stops, 'Z' ∉ s.location.data ∧ 'Z' ∉ s.municipality.data ∧
      'Z' ∉ s.region.data ∧ 'Z' ∉ s.start.data ∧ 'Z' ∉ s.«end».data) :
    (stops.filter (fun s => decide (s.category = ECategory.unplanned)) ≠ [] →
      ∃ c cs, chunksOf (format_electricity_stops_message stops fj) = c :: cs ∧
        MatchAt elecHeader.data c.data 0 ∧
        ∀ c' ∈ cs, strContains c' elecHeader = false) ∧
    (stops.filter (fun s => decide (s.category = ECategory.unplanned)) = [] →
      ∀ c ∈ chunksOf (format_electricity_stops_message stops fj),
        strContains c elecHeader = false) := by
  have hzmem : 'Z' ∈ elecHeader.data := by decide
  have hcur_clean : ∀ s ∈ stops.filter (fun s => decide (s.category = ECategory.unplanned)),
      'Z' ∉ s.location.data ∧ 'Z' ∉ s.municipality.data ∧
      'Z' ∉ s.region.data ∧ 'Z' ∉ s.start.data ∧ 'Z' ∉ s.«end».data :=
    fun s hs => hclean s (List.mem_filter.mp hs).1
  have hplan_clean : ∀ s ∈ stops.filter (fun s => decide (s.category = ECategory.planned)),
      'Z' ∉ s.location.data ∧ 'Z' ∉ s.municipality.data ∧
      'Z' ∉ s.region.data ∧ 'Z' ∉ s.start.data ∧ 'Z' ∉ s.«end».data :=
    fun s hs => hclean s (List.mem_filter.mp hs).1
  constructor
  · intro hcur
    have hne : stops ≠ [] := by
      intro h
      rw [h] at hcur
      simp at hcur
    rw [format_elec_chunks stops fj hne]
    obtain ⟨c, cs, hC, hhd, hcs⟩ := elecCurrentSection_structure _ hcur hcur_clean
    obtain ⟨rest, hP, hrest⟩ := elecPlannedSection_ext_clean
      (elecCurrentSection [] (stops.filter (fun s => decide (s.category = ECategory.unplanned))))
      (stops.filter (fun s => decide (s.category = ECategory.planned))) hplan_clean
    rw [elecMessages, hP, hC, List.cons_append, appendToLast_cons]
    by_cases hrest2 : cs ++ rest = []
    · rw [if_pos hrest2]
      exact ⟨c ++ elecFooters.getD (fj % elecFooters.length) "", [], rfl,
        MatchAt_zero_append _ hhd, by simp⟩
    · rw [if_neg hrest2]
      refine ⟨c, appendToLast (elecFooters.getD (fj % elecFooters.length) "") (cs ++ rest),
        rfl, hhd, ?_⟩
      intro c' hc'
      obtain ⟨y, hy, hxy⟩ := appendToLast_mem _ _ c' hc'
      have hyclean : 'Z' ∉ y.data := by
        rcases List.mem_append.mp hy with hy | hy
        · exact hcs y hy
        · exact hrest y hy
      have hc'clean : 'Z' ∉ c'.data := by
        rcases hxy with hxy | hxy
        · rw [hxy]
          exact hyclean
        · rw [hxy]
          exact char_not_mem_append hyclean (no_Z_elecFooter fj)
      exact strContains_eq_false hzmem hc'clean
  · intro hcurE
    by_cases hne : stops = []
    · intro c hc
      rw [hne] at hc
      simp [format_electricity_stops_message, chunksOf] at hc
    · rw [format_elec_chunks stops fj hne]
      obtain ⟨rest, hP, hrest⟩ := elecPlannedSection_ext_clean
        (elecCurrentSection [] (stops.filter (fun s => decide (s.category = ECategory.unplanned))))
        (stops.filter (fun s => decide (s.category = ECategory.planned))) hplan_clean
      rw [elecMessages, hP, hcurE]
      have hCe : elecCurrentSection [] ([] : List ElecStop) = [] := rfl
      rw [hCe, List.nil_append]
      intro c hc
      obtain ⟨y, hy, hxy⟩ := appendToLast_mem _ _ c hc
      have hyclean : 'Z' ∉ y.data := hrest y hy
      have hcclean : 'Z' ∉ c.data := by
        rcases hxy with hxy | hxy
        · rw [hxy]
          exact hyclean
        · rw [hxy]
          exact char_not_mem_append hyclean (no_Z_elecFooter fj)
      exact strContains_eq_false hzmem hcclean

/-- C8 (amended): the fixed banner header is prefixed to the first
chunk only when the input contains at least one current (water) /
unplanned (electricity) record; in that case the first chunk begins
with the header and — provided no record field contains the
distinguishing character of the header (`💧` for water, `Z` for electricity, neither
of which any banner, entry skeleton, part number or footer contains) —
no later chunk contains the header.  For inputs with no
current/unplanned record the section banners are emitted WITHOUT the
header, so no chunk contains it. -/
theorem header_only_on_first_chunk
    (wstops : List WaterStop) (estops : List ElecStop) (fi fj : Nat)
    (hwclean : ∀ s ∈ wstops,
      '💧' ∉ s.location.data ∧ '💧' ∉ s.start.data ∧ '💧' ∉ s.«end».data)
    (heclean : ∀ s ∈ estops, 'Z' ∉ s.location.data ∧ 'Z' ∉ s.municipality.data ∧
      'Z' ∉ s.region.data ∧ 'Z' ∉ s.start.data ∧ 'Z' ∉ s.«end».data) :
    (wstops.filter (fun s => decide (s.category = WCategory.current)) ≠ [] →
      ∃ c cs, chunksOf (format_water_stops_message wstops fi) = c :: cs ∧
        MatchAt waterHeader.data c.data 0 ∧
        ∀ c' ∈ cs, strContains c' waterHeader = false) ∧
    (wstops.filter (fun s => decide (s.category = WCategory.current)) = [] →
      ∀ c ∈ chunksOf (format_water_stops_message wstops fi),
        strContains c waterHeader = false) ∧
    (estops.filter (fun s => decide (s.category = ECategory.unplanned)) ≠ [] →
      ∃ c cs, chunksOf (format_electricity_stops_message estops fj) = c :: cs ∧
        MatchAt elecHeader.data c.data 0 ∧
        ∀ c' ∈ cs, strContains c' elecHeader = false) ∧
    (estops.filter (fun s => decide (s.category = ECategory.unplanned)) = [] →
      ∀ c ∈ chunksOf (format_electricity_stops_message estops fj),
        strContains c elecHeader = false) :=
  ⟨(water_header_placement wstops fi hwclean).1,
   (water_header_placement wstops fi hwclean).2,
   (elec_header_placement estops fj heclean).1,
   (elec_header_placement estops fj heclean).2⟩

/-- Witness for the amended C8 on concrete two-record inputs. -/
theorem header_only_on_first_chunk_witness :
    (∀ s ∈ [sampleWaterStop2, sampleWaterStop],
      '💧' ∉ s.location.data ∧ '💧' ∉ s.start.data ∧ '💧' ∉ s.«end».data) ∧
    (∀ s ∈ [sampleElecStop, sampleElecStop2], 'Z' ∉ s.location.data ∧
      'Z' ∉ s.municipality.data ∧ 'Z' ∉ s.region.data ∧
      'Z' ∉ s.start.data ∧ 'Z' ∉ s.«end».data) ∧
    (∃ c cs, chunksOf (format_water_stops_message [sampleWaterStop2, sampleWaterStop] 0) =
        c :: cs ∧
      MatchAt waterHeader.data c.data 0 ∧
      ∀ c' ∈ cs, strContains c' waterHeader = false) ∧
    (∃ c cs, chunksOf (format_electricity_stops_message [sampleElecStop, sampleElecStop2] 1) =
        c :: cs ∧
      MatchAt elecHeader.data c.data 0 ∧
      ∀ c' ∈ cs, strContains c' elecHeader = false) := by
  have h := header_only_on_first_chunk [sampleWaterStop2, sampleWaterStop]
    [sampleElecStop, sampleElecStop2] 0 1 (by decide) (by decide)
  exact ⟨by decide, by decide, h.1 (by decide), h.2.2.1 (by decide)⟩

/-- C8 as stated is false: for a planned-only water list the single
produced chunk (planned banner, entry, footer) neither begins with nor
contains the fixed banner header. -/
theorem header_missing_counterexample :
    chunksOf (format_water_stops_message [sampleWaterStop2] 0) =
      [waterPlannedBanner 1 ++ waterPlannedEntry 1 sampleWaterStop2 ++
        "\n_Do fill your kettle beforehand._"] ∧
    strContains (waterPlannedBanner 1 ++ waterPlannedEntry 1 sampleWaterStop2 ++
      "\n_Do fill your kettle beforehand._") waterHeader = false ∧
    ¬ MatchAt waterHeader.data (waterPlannedBanner 1 ++ waterPlannedEntry 1 sampleWaterStop2 ++
      "\n_Do fill your kettle beforehand._").data 0 :=
  ⟨by decide, by decide, by decide⟩

/-! Chunking (C2). -/

theorem zip_exists_of_mem_right {α β γ : Type} (f : α → β → γ) :
    ∀ (bs : List α) (gs : List β), bs.length = gs.length → ∀ g ∈ gs,
      ∃ b ∈ bs, f b g ∈ List.zipWith f bs gs := by
  intro bs
  induction bs with
  | nil =>
    intro gs hlen g hg
    rw [List.length_nil] at hlen
    rw [(List.length_eq_zero).mp hlen.symm] at hg
    cases hg
  | cons b bs ih =>
    intro gs hlen g hg
    cases gs with
    | nil => cases hg
    | cons g0 gs' =>
      rcases List.mem_cons.mp hg with hg | hg
      · exact ⟨b, by simp, by rw [hg]; simp [List.zipWith_cons_cons]⟩
      · obtain ⟨b', hb', hmem⟩ := ih gs' (by simpa using hlen) g hg
        exact ⟨b', by simp [hb'], by simp [List.zipWith_cons_cons, hmem]⟩

theorem entry_le_strJoin {e : String} {g : List String} (h : e ∈ g) :
    e.length ≤ (strJoin g).length := by
  rw [strJoin_length]
  exact List.single_le_sum (fun x _ => Nat.zero_le x) e.length
    (List.mem_map.mpr ⟨e, h, rfl⟩)

theorem waterCurrentSection_length_le (msgs : List String) (cur : List WaterStop) :
    (waterCurrentSection msgs cur).length ≤ msgs.length + cur.length + 1 := by
  by_cases hcur : cur = []
  · simp [waterCurrentSection, hcur]
  · unfold waterCurrentSection
    rw [if_neg hcur]
    dsimp only
    split
    · have := chunkLoop_length_le waterCurrentMk
        (numberEntries waterCurrentEntry 1 cur) msgs (waterHeader ++ waterCurrentPartBanner 1)
      rw [numberEntries_length] at this
      exact this
    · simp

theorem elecCurrentSection_length_le (msgs : List String) (u : List ElecStop) :
    (elecCurrentSection msgs u).length ≤ msgs.length + u.length + 1 := by
  by_cases hu : u = []
  · simp [elecCurrentSection, hu]
  · unfold elecCurrentSection
    rw [if_neg hu]
    dsimp only
    split
    · have := chunkLoop_length_le elecCurrentMk
        (numberEntries elecShortEntry 1 u) msgs (elecHeader ++ elecCurrentPartBanner 1)
      rw [numberEntries_length] at this
      exact this
    · simp

theorem elecEntry_short_le_long (i : Nat) (s : ElecStop) :
    (elecShortEntry i s).length ≤ (elecLongEntry i s).length := by
  have hloc : (pySlice 80 s.location).length ≤ (elecLocStr s).length := by
    simp only [elecLocStr]
    split
    · split
      · simp only [String.length_append]
        omega
      · simp only [String.length_append]
        omega
    · split
      · simp only [String.length_append]
        omega
      · omega
  simp only [elecShortEntry, elecLongEntry, String.length_append]
  omega

theorem elec_entrySum_short_le_long (l : List ElecStop) :
    ∀ i, entrySum (numberEntries elecShortEntry i l) ≤
      entrySum (numberEntries elecLongEntry i l) := by
  induction l with
  | nil => intro i; simp [numberEntries]
  | cons s rest ih =>
    intro i
    simp only [numberEntries, entrySum, List.map_cons, List.sum_cons]
    have h1 := elecEntry_short_le_long i s
    have h2 := ih (i + 1)
    simp only [entrySum] at h2
    omega

theorem format_water_many (stops : List WaterStop) (fi : Nat)
    (h2 : 2 ≤ (waterMessages stops).length) :
    format_water_stops_message stops fi =
      FmtResult.many (appendToLast (waterFooters.getD (fi % waterFooters.length) "")
        (waterMessages stops)) := by
  have hne : stops ≠ [] := by
    intro h
    rw [h] at h2
    have : waterMessages ([] : List WaterStop) = [] := rfl
    rw [this] at h2
    simp at h2
  have hmsgs : waterMessages stops ≠ [] := waterMessages_ne_nil hne
  rw [format_water_stops_message, if_neg hne]
  simp only [if_neg hmsgs]
  have hlen := appendToLast_length (waterFooters.getD (fi % waterFooters.length) "")
    (waterMessages stops)
  rcases hx : appendToLast (waterFooters.getD (fi % waterFooters.length) "")
      (waterMessages stops) with _ | ⟨m, ms⟩
  · rw [hx] at hlen
    simp at hlen
    omega
  · cases ms with
    | nil =>
      rw [hx] at hlen
      simp at hlen
      omega
    | cons m2 ms2 => rfl

theorem format_elec_many (stops : List ElecStop) (fj : Nat)
    (h2 : 2 ≤ (elecMessages stops).length) :
    format_electricity_stops_message stops fj =
      FmtResult.many (appendToLast (elecFooters.getD (fj % elecFooters.length) "")
        (elecMessages stops)) := by
  have hne : stops ≠ [] := by
    intro h
    rw [h] at h2
    have : elecMessages ([] : List ElecStop) = [] := rfl
    rw [this] at h2
    simp at h2
  have hmsgs : elecMessages stops ≠ [] := elecMessages_ne_nil hne
  rw [format_electricity_stops_message, if_neg hne]
  simp only [if_neg hmsgs]
  have hlen := appendToLast_length (elecFooters.getD (fj % elecFooters.length) "")
    (elecMessages stops)
  rcases hx : appendToLast (elecFooters.getD (fj % elecFooters.length) "")
      (elecMessages stops) with _ | ⟨m, ms⟩
  · rw [hx] at hlen
    simp at hlen
    omega
  · cases ms with
    | nil =>
      rw [hx] at hlen
      simp at hlen
      omega
    | cons m2 ms2 => rfl

/-- If the chunk decomposition carries entries summing to more than
1900 characters while every chunk fits the 1900 budget, there are at
least two chunks. -/
theorem chunks_ge_two {bs : List String} {gs : List (List String)} {es : List String}
    (hlen : bs.length = gs.length) (hbs : bs ≠ [])
    (hflat : gs.flatten = es)
    (hbnd : ∀ c ∈ List.zipWith (fun b g => b ++ strJoin g) bs gs, c.length ≤ 1900)
    (hsum : 1900 < entrySum es) :
    2 ≤ (List.zipWith (fun b g => b ++ strJoin g) bs gs).length := by
  by_contra h
  push_neg at h
  have hz : (List.zipWith (fun b g => b ++ strJoin g) bs gs).length = bs.length := by
    rw [List.length_zipWith, ← hlen, Nat.min_self]
  have hpos : 0 < bs.length := List.length_pos.mpr hbs
  have hone : bs.length = 1 := by omega
  obtain ⟨b, hb⟩ := List.length_eq_one.mp hone
  have hgone : gs.length = 1 := by omega
  obtain ⟨g, hg⟩ := List.length_eq_one.mp hgone
  subst hb
  subst hg
  have hge : g = es := by
    simpa using hflat
  have hc := hbnd (b ++ strJoin g) (by simp [List.zipWith_cons_cons])
  rw [String.length_append, strJoin_length, hge] at hc
  omega

/-- Core chunking property of the two water sections run in sequence. -/
theorem water_sections_chunking (cur plan : List WaterStop)
    (hcc : cur.length ≤ 99) (hpc : plan.length ≤ 99)
    (hentC : ∀ e ∈ numberEntries waterCurrentEntry 1 cur, e.length ≤ 1750)
    (hentP : ∀ e ∈ numberEntries waterPlannedEntry 1 plan, e.length ≤ 1750)
    (hsum : 1900 < entrySum (numberEntries waterCurrentEntry 1 cur ++
      numberEntries waterPlannedEntry 1 plan)) :
    2 ≤ (waterPlannedSection (waterCurrentSection [] cur) plan).length ∧
    (∀ c ∈ waterPlannedSection (waterCurrentSection [] cur) plan, c.length ≤ 1900) ∧
    (∃ (bs : List String) (gs : List (List String)), bs.length = gs.length ∧
      gs.flatten = numberEntries waterCurrentEntry 1 cur ++
        numberEntries waterPlannedEntry 1 plan ∧
      waterPlannedSection (waterCurrentSection [] cur) plan =
        List.zipWith (fun b g => b ++ strJoin g) bs gs) := by
  by_cases hcur : cur = []
  · by_cases hplan : plan = []
    · exfalso
      rw [hcur, hplan] at hsum
      simp [numberEntries, entrySum] at hsum
    · obtain ⟨bsP, gsP, hlenP, hbsP, hflatP, houtP, hbndP, hheadP, htailP⟩ :=
        waterPlannedSection_spec (waterCurrentSection [] cur) plan hplan
          (by
            rw [hcur]
            have : waterCurrentSection [] ([] : List WaterStop) = [] := rfl
            rw [this]
            simp
            omega)
          (by
            rw [hcur]
            have : waterCurrentSection [] ([] : List WaterStop) = [] := rfl
            rw [this]
            simp)
          hentP
      have hCnil : waterCurrentSection [] cur = [] := by
        rw [hcur]
        rfl
      rw [hCnil] at houtP
      rw [List.nil_append] at houtP
      have hsum' : 1900 < entrySum (numberEntries waterPlannedEntry 1 plan) := by
        rw [hcur] at hsum
        simpa [numberEntries, entrySum] using hsum
      refine ⟨?_, ?_, ?_⟩
      · rw [hCnil, houtP]
        exact chunks_ge_two hlenP hbsP hflatP hbndP hsum'
      · rw [hCnil, houtP]
        exact hbndP
      · refine ⟨bsP, gsP, hlenP, ?_, by rw [hCnil]; exact houtP⟩
        rw [hflatP, hcur]
        rfl
  · by_cases hplan : plan = []
    · obtain ⟨bsC, gsC, hlenC, hbsC, hflatC, houtC, hbndC, hheadC, htailC⟩ :=
        waterCurrentSection_spec [] cur hcur (by simp; omega) (by simp) hentC
      rw [List.nil_append] at houtC
      have hPid : waterPlannedSection (waterCurrentSection [] cur) plan =
          waterCurrentSection [] cur := by
        rw [hplan]
        simp [waterPlannedSection]
      have hsum' : 1900 < entrySum (numberEntries waterCurrentEntry 1 cur) := by
        rw [hplan] at hsum
        simpa [numberEntries, entrySum] using hsum
      refine ⟨?_, ?_, ?_⟩
      · rw [hPid, houtC]
        exact chunks_ge_two hlenC hbsC hflatC hbndC hsum'
      · rw [hPid, houtC]
        exact hbndC
      · refine ⟨bsC, gsC, hlenC, ?_, by rw [hPid, houtC]⟩
        rw [hflatC, hplan]
        simp [numberEntries]
    · obtain ⟨bsC, gsC, hlenC, hbsC, hflatC, houtC, hbndC, hheadC, htailC⟩ :=
        waterCurrentSection_spec [] cur hcur (by simp; omega) (by simp) hentC
      rw [List.nil_append] at houtC
      have hClen : (waterCurrentSection [] cur).length ≤ cur.length + 1 := by
        have := waterCurrentSection_length_le [] cur
        simpa using this
      obtain ⟨bsP, gsP, hlenP, hbsP, hflatP, houtP, hbndP, hheadP, htailP⟩ :=
        waterPlannedSection_spec (waterCurrentSection [] cur) plan hplan
          (by omega)
          (by rw [houtC]; exact hbndC)
          hentP
      refine ⟨?_, ?_, ?_⟩
      · rw [houtP, houtC, List.length_append]
        have h1 : 0 < (List.zipWith (fun b g => b ++ strJoin g) bsC gsC).length :=
          List.length_pos.mpr (zipWith_chunks_ne_nil hbsC hlenC)
        have h2 : 0 < (List.zipWith (fun b g => b ++ strJoin g) bsP gsP).length :=
          List.length_pos.mpr (zipWith_chunks_ne_nil hbsP hlenP)
        omega
      · rw [houtP, houtC]
        intro c hc
        rcases List.mem_append.mp hc with hc | hc
        · exact hbndC c hc
        · exact hbndP c hc
      · refine ⟨bsC ++ bsP, gsC ++ gsP, ?_, ?_, ?_⟩
        · simp [hlenC, hlenP]
        · rw [List.flatten_append, hflatC, hflatP]
        · rw [houtP, houtC, List.zipWith_append _ _ _ _ _ hlenC]

theorem elecCurrentChunkEntries_sum_ge (u : List ElecStop) :
    entrySum (numberEntries elecShortEntry 1 u) ≤ entrySum (elecCurrentChunkEntries u) := by
  rw [elecCurrentChunkEntries]
  split
  · exact Nat.le_refl _
  · exact elec_entrySum_short_le_long u 1

theorem elecPlannedChunkEntries_sum_ge (p : List ElecStop) :
    entrySum (numberEntries elecShortEntry 1 p) ≤ entrySum (elecPlannedChunkEntries p) := by
  rw [elecPlannedChunkEntries]
  split
  · exact Nat.le_refl _
  · exact elec_entrySum_short_le_long p 1

/-- Core chunking property of the two electricity sections run in
sequence. -/
theorem elec_sections_chunking (u p : List ElecStop)
    (huc : u.length ≤ 99) (hpc : p.length ≤ 99)
    (hentU : ∀ e ∈ numberEntries elecShortEntry 1 u, e.length ≤ 1750)
    (hentP : ∀ e ∈ numberEntries elecShortEntry 1 p, e.length ≤ 1750)
    (hsum : 1900 < entrySum (numberEntries elecShortEntry 1 u ++
      numberEntries elecShortEntry 1 p)) :
    2 ≤ (elecPlannedSection (elecCurrentSection [] u) p).length ∧
    (∀ c ∈ elecPlannedSection (elecCurrentSection [] u) p, c.length ≤ 1900) ∧
    (∃ (bs : List String) (gs : List (List String)), bs.length = gs.length ∧
      gs.flatten = elecCurrentChunkEntries u ++ elecPlannedChunkEntries p ∧
      elecPlannedSection (elecCurrentSection [] u) p =
        List.zipWith (fun b g => b ++ strJoin g) bs gs) := by
  by_cases hu : u = []
  · by_cases hp : p = []
    · exfalso
      rw [hu, hp] at hsum
      simp [numberEntries, entrySum] at hsum
    · obtain ⟨bsP, gsP, hlenP, hbsP, hflatP, houtP, hbndP, hheadP, htailP⟩ :=
        elecPlannedSection_spec (elecCurrentSection [] u) p hp
          (by
            rw [hu]
            have : elecCurrentSection [] ([] : List ElecStop) = [] := rfl
            rw [this]
            simp
            omega)
          (by
            rw [hu]
            have : elecCurrentSection [] ([] : List ElecStop) = [] := rfl
            rw [this]
            simp)
          hentP
      have hCnil : elecCurrentSection [] u = [] := by
        rw [hu]
        rfl
      have hsum' : 1900 < entrySum (elecPlannedChunkEntries p) := by
        rw [hu] at hsum
        have h0 := elecPlannedChunkEntries_sum_ge p
        simp only [numberEntries, List.nil_append] at hsum
        omega
      rw [hCnil, List.nil_append] at houtP
      refine ⟨?_, ?_, ?_⟩
      · rw [hCnil, houtP]
        exact chunks_ge_two hlenP hbsP hflatP hbndP hsum'
      · rw [hCnil, houtP]
        exact hbndP
      · refine ⟨bsP, gsP, hlenP, ?_, by rw [hCnil]; exact houtP⟩
        rw [hflatP, hu]
        have : elecCurrentChunkEntries ([] : List ElecStop) = [] := rfl
        rw [this, List.nil_append]
  · by_cases hp : p = []
    · obtain ⟨bsC, gsC, hlenC, hbsC, hflatC, houtC, hbndC, hheadC, htailC⟩ :=
        elecCurrentSection_spec [] u hu (by simp; omega) (by simp) hentU
      rw [List.nil_append] at houtC
      have hPid : elecPlannedSection (elecCurrentSection [] u) p =
          elecCurrentSection [] u := by
        rw [hp]
        simp [elecPlannedSection]
      have hsum' : 1900 < entrySum (elecCurrentChunkEntries u) := by
        rw [hp] at hsum
        have h0 := elecCurrentChunkEntries_sum_ge u
        simp only [numberEntries, List.append_nil] at hsum
        omega
      refine ⟨?_, ?_, ?_⟩
      · rw [hPid, houtC]
        exact chunks_ge_two hlenC hbsC hflatC hbndC hsum'
      · rw [hPid, houtC]
        exact hbndC
      · refine ⟨bsC, gsC, hlenC, ?_, by rw [hPid, houtC]⟩
        rw [hflatC, hp]
        have : elecPlannedChunkEntries ([] : List ElecStop) = [] := rfl
        rw [this, List.append_nil]
    · obtain ⟨bsC, gsC, hlenC, hbsC, hflatC, houtC, hbndC, hheadC, htailC⟩ :=
        elecCurrentSection_spec [] u hu (by simp; omega) (by simp) hentU
      rw [List.nil_append] at houtC
      have hClen : (elecCurrentSection [] u).length ≤ u.length + 1 := by
        have := elecCurrentSection_length_le [] u
        simpa using this
      obtain ⟨bsP, gsP, hlenP, hbsP, hflatP, houtP, hbndP, hheadP, htailP⟩ :=
        elecPlannedSection_spec (elecCurrentSection [] u) p hp
          (by omega)
          (by rw [houtC]; exact hbndC)
          hentP
      refine ⟨?_, ?_, ?_⟩
      · rw [houtP, houtC, List.length_append]
        have h1 : 0 < (List.zipWith (fun b g => b ++ strJoin g) bsC gsC).length :=
          List.length_pos.mpr (zipWith_chunks_ne_nil hbsC hlenC)
        have h2 : 0 < (List.zipWith (fun b g => b ++ strJoin g) bsP gsP).length :=
          List.length_pos.mpr (zipWith_chunks_ne_nil hbsP hlenP)
        omega
      · rw [houtP, houtC]
        intro c hc
        rcases List.mem_append.mp hc with hc | hc
        · exact hbndC c hc
        · exact hbndP c hc
      · refine ⟨bsC ++ bsP, gsC ++ gsP, ?_, ?_, ?_⟩
        · simp [hlenC, hlenP]
        · rw [List.flatten_append, hflatC, hflatP]
        · rw [houtP, houtC, List.zipWith_append _ _ _ _ _ hlenC]

/-- C2 (amended): when the rendered entries (for electricity: the
short-form entries the overflow loops iterate over) sum to more than
1900 characters, and additionally every such entry fits a fresh chunk
(length at most 1750) and there are at most 99 records, then `format()`
returns at least two chunks, every pre-footer chunk is at most 1900
characters long (header and part banners included), and the chunks
decompose as banner-plus-consecutive-entry-groups whose concatenation
is exactly the full entry list — the entry of every record appears exactly
once, in input order within each category group.  The final result is
the `many` constructor carrying these chunks with the footer appended
to the last one. -/
theorem chunking_preserves_entries_and_budget
    (wstops : List WaterStop) (estops : List ElecStop) (fi fj : Nat)
    (hwc : wstops.length ≤ 99)
    (hwe : ∀ e ∈ waterAllEntries wstops, e.length ≤ 1750)
    (hws : 1900 < entrySum (waterAllEntries wstops))
    (hec : estops.length ≤ 99)
    (hee : ∀ e ∈ elecLoopEntries estops, e.length ≤ 1750)
    (hes : 1900 < entrySum (elecLoopEntries estops)) :
    (2 ≤ (waterMessages wstops).length ∧
     (∀ c ∈ waterMessages wstops, c.length ≤ 1900) ∧
     (∃ (bs : List String) (gs : List (List String)), bs.length = gs.length ∧
       gs.flatten = waterAllEntries wstops ∧
       waterMessages wstops = List.zipWith (fun b g => b ++ strJoin g) bs gs) ∧
     format_water_stops_message wstops fi =
       FmtResult.many (appendToLast (waterFooters.getD (fi % waterFooters.length) "")
         (waterMessages wstops))) ∧
    (2 ≤ (elecMessages estops).length ∧
     (∀ c ∈ elecMessages estops, c.length ≤ 1900) ∧
     (∃ (bs : List String) (gs : List (List String)), bs.length = gs.length ∧
       gs.flatten = elecAllChunkEntries estops ∧
       elecMessages estops = List.zipWith (fun b g => b ++ strJoin g) bs gs) ∧
     format_electricity_stops_message estops fj =
       FmtResult.many (appendToLast (elecFooters.getD (fj % elecFooters.length) "")
         (elecMessages estops))) := by
  have hw := water_sections_chunking
    (wstops.filter (fun s => decide (s.category = WCategory.current)))
    (wstops.filter (fun s => decide (s.category = WCategory.planned)))
    (Nat.le_trans (List.length_filter_le _ _) hwc)
    (Nat.le_trans (List.length_filter_le _ _) hwc)
    (fun e he => hwe e (List.mem_append_left _ he))
    (fun e he => hwe e (List.mem_append_right _ he))
    hws
  have he := elec_sections_chunking
    (estops.filter (fun s => decide (s.category = ECategory.unplanned)))
    (estops.filter (fun s => decide (s.category = ECategory.planned)))
    (Nat.le_trans (List.length_filter_le _ _) hec)
    (Nat.le_trans (List.length_filter_le _ _) hec)
    (fun e he => hee e (List.mem_append_left _ he))
    (fun e he => hee e (List.mem_append_right _ he))
    hes
  refine ⟨⟨hw.1, hw.2.1, hw.2.2, format_water_many wstops fi hw.1⟩,
         ⟨he.1, he.2.1, he.2.2, format_elec_many estops fj he.1⟩⟩

/-- C2 as stated is false: one current water record with a 2000-character
start string makes the rendered entries sum exceed 1900 (the
hypothesis of the claim), yet the overflow loop emits that oversized entry into a
single chunk, so a chunk exceeds 1900 characters. -/
theorem chunking_budget_counterexample :
    1900 < entrySum (waterAllEntries [sampleWaterStopLong]) ∧
    ∃ c ∈ waterMessages [sampleWaterStopLong], 1900 < c.length := by
  have hent2000 : 2000 ≤ (waterCurrentEntry 1 sampleWaterStopLong).length := by
    simp only [waterCurrentEntry, String.length_append]
    have hs : sampleWaterStopLong.start = longStart := rfl
    rw [hs, longStart_length]
    omega
  constructor
  · show 1900 < entrySum ([waterCurrentEntry 1 sampleWaterStopLong] ++ [])
    rw [List.append_nil]
    simp only [entrySum, List.map_cons, List.map_nil, List.sum_cons, List.sum_nil]
    omega
  · obtain ⟨bs, gs, hlen, hbs, hflat, hout, hhead, htail⟩ :=
      waterCurrentSection_decomp [] [sampleWaterStopLong] (by simp)
    have hcf : [sampleWaterStopLong].filter
        (fun s => decide (s.category = WCategory.current)) = [sampleWaterStopLong] := rfl
    have hpf : [sampleWaterStopLong].filter
        (fun s => decide (s.category = WCategory.planned)) = [] := rfl
    have hmsg : waterMessages [sampleWaterStopLong] =
        waterCurrentSection [] [sampleWaterStopLong] := by
      rw [waterMessages, hcf, hpf]
      unfold waterPlannedSection
      rw [if_pos rfl]
    have hentry_mem : waterCurrentEntry 1 sampleWaterStopLong ∈ gs.flatten := by
      rw [hflat]
      show waterCurrentEntry 1 sampleWaterStopLong ∈ [waterCurrentEntry 1 sampleWaterStopLong]
      simp
    obtain ⟨g, hg, heg⟩ := List.mem_flatten.mp hentry_mem
    obtain ⟨b, hb, hmem⟩ := zip_exists_of_mem_right _ bs gs hlen g hg
    refine ⟨b ++ strJoin g, ?_, ?_⟩
    · rw [hmsg, hout]
      simpa using hmem
    · have h1 := entry_le_strJoin heg
      rw [String.length_append]
      omega

/-- Witness for the amended C2: 55 identical current water records and
55 identical unplanned electricity records overflow the budget and are
split into chunks within it. -/
theorem chunking_preserves_entries_and_budget_witness :
    (List.replicate 55 sampleWaterStop).length ≤ 99 ∧
    (∀ e ∈ waterAllEntries (List.replicate 55 sampleWaterStop), e.length ≤ 1750) ∧
    1900 < entrySum (waterAllEntries (List.replicate 55 sampleWaterStop)) ∧
    (List.replicate 55 sampleElecStop2).length ≤ 99 ∧
    (∀ e ∈ elecLoopEntries (List.replicate 55 sampleElecStop2), e.length ≤ 1750) ∧
    1900 < entrySum (elecLoopEntries (List.replicate 55 sampleElecStop2)) ∧
    (2 ≤ (waterMessages (List.replicate 55 sampleWaterStop)).length ∧
     2 ≤ (elecMessages (List.replicate 55 sampleElecStop2)).length ∧
     (∀ c ∈ waterMessages (List.replicate 55 sampleWaterStop), c.length ≤ 1900) ∧
     (∀ c ∈ elecMessages (List.replicate 55 sampleElecStop2), c.length ≤ 1900)) := by
  have h := chunking_preserves_entries_and_budget (List.replicate 55 sampleWaterStop)
    (List.replicate 55 sampleElecStop2) 0 0 (by decide) (by decide) (by decide)
    (by decide) (by decide) (by decide)
  exact ⟨by decide, by decide, by decide, by decide, by decide, by decide,
    h.1.1, h.2.1, h.1.2.1, h.2.2.1⟩
